import Mathlib

/-
Verification of the go-quote library (quote.go) against its specification.

The Go code is shallowly embedded: Go strings are lists of characters,
float64 price fields are rationals, time.Time values are calendar records.
Each definition mirrors one function (or the pure parsing stage of one
function) of quote.go; network responses are passed in explicitly as data.
-/

set_option maxRecDepth 20000

namespace GoQuote

/-- Go strings modelled as lists of characters. -/
abbrev Str := List Char

/-- Decimal digit character (the digits emitted by Go's fmt integer formatting). -/
def digitChar : Nat → Char
  | 0 => '0'
  | 1 => '1'
  | 2 => '2'
  | 3 => '3'
  | 4 => '4'
  | 5 => '5'
  | 6 => '6'
  | 7 => '7'
  | 8 => '8'
  | 9 => '9'
  | _ => '*'

/-- Fuelled most-significant-first decimal printer for naturals; the fuel only
bounds the recursion depth and `natDigits` always supplies enough of it. -/
def natDigitsF : Nat → Nat → Str
  | 0, n => [digitChar n]
  | fuel+1, n => if n < 10 then [digitChar n] else natDigitsF fuel (n / 10) ++ [digitChar (n % 10)]

/-- Decimal digit string of a natural number, as Go's fmt renders integers. -/
def natDigits (n : Nat) : Str := natDigitsF n n

/-- Numeric value of one decimal digit character. -/
def digitVal (c : Char) : Nat := c.toNat - 48

/-- Value accumulated over a digit string the way Go's strconv digit loop does. -/
def digValN (s : Str) : Nat := s.foldl (fun a c => a * 10 + digitVal c) 0

/-- Zero left-padding to a requested width, as fmt's zero-padded verbs do. -/
def padLeft (w : Nat) (s : Str) : Str := List.replicate (w - s.length) '0' ++ s

/-- Go's strings.Split for a one-character separator: splits around every
occurrence of the separator, keeping empty fields. -/
def goSplit (sep : Char) : Str → List Str
  | [] => [[]]
  | c :: rest =>
    match goSplit sep rest with
    | [] => [[]]
    | r :: rs => if c = sep then [] :: r :: rs else (c :: r) :: rs

/-- Fixed-precision rendering of a nonnegative scaled integer: `m` counts units
of 10^(-p).  This is the digit layout Go's fmt %.pf produces. -/
def fmtDecN (p : Nat) (m : Nat) : Str :=
  if p = 0 then natDigits m
  else natDigits (m / 10 ^ p) ++ '.' :: padLeft p (natDigits (m % 10 ^ p))

/-- Go's fmt %.pf applied to a rational standing in for a float64: the value is
scaled by 10^p and rounded to an integer, then printed with p decimals.
Go rounds ties to even; `round` rounds ties up, which agrees with Go on every
value whose scaled form is exact (the only case the theorems below rely on). -/
def fmtDec (p : Nat) (x : Rat) : Str :=
  let n : Int := round (x * (10 : Rat) ^ p)
  (if n < 0 then ['-'] else []) ++ fmtDecN p n.natAbs

/-- Plain decimal forms accepted by the model of strconv.ParseFloat:
an integer part, optionally a point and a fraction part, at least one digit. -/
def parseUF (s : Str) : Option Rat :=
  match goSplit '.' s with
  | [ds] => if !ds.isEmpty && ds.all Char.isDigit then some ((digValN ds : Nat) : Rat) else none
  | [ds, fs] =>
    if !(ds ++ fs).isEmpty && ds.all Char.isDigit && fs.all Char.isDigit then
      some (((digValN ds : Nat) : Rat) + ((digValN fs : Nat) : Rat) / (10 : Rat) ^ fs.length)
    else none
  | _ => none

/-- Model of Go's strconv.ParseFloat as the call sites use it: the error is
discarded and the value defaults to 0.  Exponent and hexadecimal forms are not
modelled; no call site in quote.go receives them. -/
def parseFloatD (s : Str) : Rat :=
  match s with
  | [] => 0
  | c :: rest =>
    if c = '-' then -((parseUF rest).getD 0)
    else if c = '+' then (parseUF rest).getD 0
    else (parseUF (c :: rest)).getD 0

/-- Model of Go's strconv.Atoi as getAnonFTP uses it: digits with an optional
sign, any error discarded to 0. -/
def atoiD (s : Str) : Int :=
  match s with
  | [] => 0
  | c :: rest =>
    if c = '-' then
      if !rest.isEmpty && rest.all Char.isDigit then -(digValN rest : Int) else 0
    else if c = '+' then
      if !rest.isEmpty && rest.all Char.isDigit then (digValN rest : Int) else 0
    else if !(c :: rest).isEmpty && (c :: rest).all Char.isDigit then (digValN (c :: rest) : Int)
    else 0

/-- Calendar timestamp standing in for Go's time.Time at second granularity
(the code never reads finer fields). -/
structure DateTime where
  year : Nat
  month : Nat
  day : Nat
  hour : Nat
  minute : Nat
  sec : Nat
deriving DecidableEq, Repr

/-- Zero value of time.Time: January 1 of year 1, 00:00:00 UTC. -/
def zeroDT : DateTime := ⟨1, 1, 1, 0, 0, 0⟩

/-- Total chronological key of a timestamp (strictly monotone in calendar
order on the in-range values the code produces); used to state ordering. -/
def DateTime.key (d : DateTime) : Nat :=
  ((((d.year * 13 + d.month) * 32 + d.day) * 24 + d.hour) * 60 + d.minute) * 60 + d.sec

/-- Chronological strict order on timestamps. -/
def dtLt (a b : DateTime) : Prop := a.key < b.key

instance : DecidableRel dtLt := fun a b => Nat.decLt a.key b.key

/-- Days in a month under the Gregorian rules Go's time package validates with. -/
def monthDays (y m : Nat) : Nat :=
  if m = 2 then (if y % 4 = 0 ∧ (y % 100 ≠ 0 ∨ y % 400 = 0) then 29 else 28)
  else if m = 4 ∨ m = 6 ∨ m = 9 ∨ m = 11 then 30 else 31

/-- Exactly `k` leading digit characters, with the value and the rest of the
input, as Go's fixed-width layout number reader takes them. -/
def takeDigitsK (k : Nat) (s : Str) : Option (Nat × Str) :=
  let pre := s.take k
  if pre.length == k && pre.all Char.isDigit then some (digValN pre, s.drop k) else none

/-- One expected literal layout character. -/
def expectC (c : Char) : Str → Option Str
  | [] => none
  | x :: rest => if x = c then some rest else none

/-- Model of Go's time.Parse with layout "2006-01-02 15:04": fixed-width
zero-padded fields, range validation, seconds set to zero, error as none. -/
def parseDateMin (s : Str) : Option DateTime := do
  let (y, s1) ← takeDigitsK 4 s
  let s2 ← expectC '-' s1
  let (mo, s3) ← takeDigitsK 2 s2
  let s4 ← expectC '-' s3
  let (d, s5) ← takeDigitsK 2 s4
  let s6 ← expectC ' ' s5
  let (h, s7) ← takeDigitsK 2 s6
  let s8 ← expectC ':' s7
  let (mi, s9) ← takeDigitsK 2 s8
  if s9 = [] ∧ 1 ≤ mo ∧ mo ≤ 12 ∧ 1 ≤ d ∧ d ≤ monthDays y mo ∧ h ≤ 23 ∧ mi ≤ 59 then
    some ⟨y, mo, d, h, mi, 0⟩
  else none

/-- Model of Go's time.Parse with layout "2006-01-02" (the Yahoo download's
date column). -/
def parseDateDay (s : Str) : Option DateTime := do
  let (y, s1) ← takeDigitsK 4 s
  let s2 ← expectC '-' s1
  let (mo, s3) ← takeDigitsK 2 s2
  let s4 ← expectC '-' s3
  let (d, s5) ← takeDigitsK 2 s4
  if s5 = [] ∧ 1 ≤ mo ∧ mo ≤ 12 ∧ 1 ≤ d ∧ d ≤ monthDays y mo then
    some ⟨y, mo, d, 0, 0, 0⟩
  else none

/-- Zero-padded two-digit field of Go's time formatting. -/
def pad2 (n : Nat) : Str := padLeft 2 (natDigits n)

/-- Zero-padded four-digit year field of Go's time formatting. -/
def pad4 (n : Nat) : Str := padLeft 4 (natDigits n)

/-- Go's time.Time.Format with layout "2006-01-02 15:04". -/
def fmtDateMin (d : DateTime) : Str :=
  pad4 d.year ++ '-' :: pad2 d.month ++ '-' :: pad2 d.day ++ ' ' :: pad2 d.hour ++ ':' :: pad2 d.minute

/-- One or two leading digit characters, as Go's non-padded layout day "2"
is read (two digits are taken when available). -/
def takeDigits1or2 : Str → Option (Nat × Str)
  | [] => none
  | [c1] => if c1.isDigit then some (digitVal c1, []) else none
  | c1 :: c2 :: rest =>
    if c1.isDigit && c2.isDigit then some (digValN [c1, c2], rest)
    else if c1.isDigit then some (digitVal c1, c2 :: rest)
    else none

/-- Case-insensitive equality of two character lists (Go's layout name lookup
matches month names case-insensitively). -/
def eqCI (a b : Str) : Bool :=
  a.length == b.length && (a.zip b).all (fun p => p.1.toLower == p.2.toLower)

/-- Short month names of Go's time package. -/
def monthAbbrevs : List Str :=
  ["Jan".data, "Feb".data, "Mar".data, "Apr".data, "May".data, "Jun".data,
   "Jul".data, "Aug".data, "Sep".data, "Oct".data, "Nov".data, "Dec".data]

/-- Index lookup of a three-character month name. -/
def monthFind : Nat → List Str → Str → Option Nat
  | _, [], _ => none
  | i, m :: ms, s => if eqCI m s then some i else monthFind (i + 1) ms s

/-- Model of Go's time.Parse with layout "2-Jan-06" (the Google daily date
column): day without padding, short month name, two-digit year with Go's
69-cutover, range validation. -/
def parseDateGoogle (s : Str) : Option DateTime := do
  let (d, s1) ← takeDigits1or2 s
  let s2 ← expectC '-' s1
  let mo ← monthFind 1 monthAbbrevs (s2.take 3)
  let s3 ← expectC '-' (s2.drop 3)
  let (yy, s4) ← takeDigitsK 2 s3
  let y := if 69 ≤ yy then yy + 1900 else yy + 2000
  if s4 = [] ∧ 1 ≤ mo ∧ mo ≤ 12 ∧ 1 ≤ d ∧ d ≤ monthDays y mo then
    some ⟨y, mo, d, 0, 0, 0⟩
  else none

/-- Quote - structure for historical price data (quote.go lines 35-43), with
the timestamp representation a parameter so the Gdax adapter can carry Unix
seconds while the CSV codecs carry calendar timestamps. -/
@[ext]
structure Quote (τ : Type) where
  symbol : Str
  date : List τ
  «open» : List Rat
  high : List Rat
  low : List Rat
  close : List Rat
  volume : List Rat
deriving DecidableEq, Repr

/-- Parallel slices of a Quote all have the bar count (NewQuote always
establishes this and the Go loops index all slices together). -/
def Quote.WF {τ : Type} (q : Quote τ) : Prop :=
  q.date.length = q.close.length ∧ q.«open».length = q.close.length ∧
  q.high.length = q.close.length ∧ q.low.length = q.close.length ∧
  q.volume.length = q.close.length

/-- NewQuote - new empty Quote struct (quote.go lines 83-93). -/
def NewQuote (symbol : Str) (bars : Nat) : Quote DateTime :=
  { symbol := symbol
    date := List.replicate bars zeroDT
    «open» := List.replicate bars 0
    high := List.replicate bars 0
    low := List.replicate bars 0
    close := List.replicate bars 0
    volume := List.replicate bars 0 }

/-- Header line of Quote.CSV (quote.go line 107). -/
def csvHeader : Str := "datetime,open,high,low,close,volume".data

/-- One bar line of Quote.CSV (quote.go lines 109-110): the Sprintf template
"%s,%.2f,%.2f,%.2f,%.2f,%.6f" over the fields at one index. -/
def csvLine (q : Quote DateTime) (i : Nat) : Str :=
  fmtDateMin (q.date.getD i zeroDT) ++ ',' :: fmtDec 2 (q.«open».getD i 0) ++
    ',' :: fmtDec 2 (q.high.getD i 0) ++ ',' :: fmtDec 2 (q.low.getD i 0) ++
    ',' :: fmtDec 2 (q.close.getD i 0) ++ ',' :: fmtDec 6 (q.volume.getD i 0)

/-- CSV - convert Quote structure to csv string (quote.go lines 105-114):
header line then one line per index of the Close slice, each ending in a
newline. -/
def Quote.CSV (q : Quote DateTime) : Str :=
  csvHeader ++ '\n' :: ((List.range q.close.length).map (fun i => csvLine q i ++ ['\n'])).flatten

/-- Field `k` of a comma-split line, the empty string past the end (Go would
panic there; no call in the verified claims reaches that case). -/
def fieldOf (line : Str) (k : Nat) : Str := (goSplit ',' line).getD k []

/-- NewQuoteFromCSV - parse csv quote string into Quote structure (quote.go
lines 161-177): split on newlines, drop the header row and the element after
the final newline, and parse the six columns of each remaining row; the
symbol argument is ignored and the quote is built over the empty symbol. -/
def NewQuoteFromCSV (_symbol : Str) (csv : Str) : Quote DateTime :=
  let tmp := goSplit '\n' csv
  let numrows := tmp.length - 1
  let rows := (tmp.drop 1).take (numrows - 1)
  { symbol := []
    date := rows.map (fun r => (parseDateMin (fieldOf r 0)).getD zeroDT)
    «open» := rows.map (fun r => parseFloatD (fieldOf r 1))
    high := rows.map (fun r => parseFloatD (fieldOf r 2))
    low := rows.map (fun r => parseFloatD (fieldOf r 3))
    close := rows.map (fun r => parseFloatD (fieldOf r 4))
    volume := rows.map (fun r => parseFloatD (fieldOf r 5)) }

/-- Header line of Quotes.CSV (quote.go line 233). -/
def csvHeaderMulti : Str := "symbol,datetime,open,high,low,close,volume".data

/-- One bar line of Quotes.CSV (quote.go lines 238-239): the Sprintf template
"%s,%s,%.2f,%.2f,%.2f,%.2f,%.0f" over one quote's fields at one index. -/
def csvLineMulti (q : Quote DateTime) (i : Nat) : Str :=
  q.symbol ++ ',' :: fmtDateMin (q.date.getD i zeroDT) ++ ',' :: fmtDec 2 (q.«open».getD i 0) ++
    ',' :: fmtDec 2 (q.high.getD i 0) ++ ',' :: fmtDec 2 (q.low.getD i 0) ++
    ',' :: fmtDec 2 (q.close.getD i 0) ++ ',' :: fmtDec 0 (q.volume.getD i 0)

/-- Quotes - an array of historical price data (quote.go line 46). -/
def Quotes := List (Quote DateTime)

/-- CSV - convert Quotes structure to csv string (quote.go lines 229-245). -/
def Quotes.CSV (qs : Quotes) : Str :=
  csvHeaderMulti ++ '\n' ::
    (qs.map (fun q => ((List.range q.close.length).map (fun i => csvLineMulti q i ++ ['\n'])).flatten)).flatten

/-- One grouped quote of NewQuotesFromCSV: symbol `sym` over `rows`, parsing
columns 1..6 of each row (quote.go lines 305-315). -/
def mkQuoteMulti (sym : Str) (rows : List Str) : Quote DateTime :=
  { symbol := sym
    date := rows.map (fun r => (parseDateMin (fieldOf r 1)).getD zeroDT)
    «open» := rows.map (fun r => parseFloatD (fieldOf r 2))
    high := rows.map (fun r => parseFloatD (fieldOf r 3))
    low := rows.map (fun r => parseFloatD (fieldOf r 4))
    close := rows.map (fun r => parseFloatD (fieldOf r 5))
    volume := rows.map (fun r => parseFloatD (fieldOf r 6)) }

/-- Iteration of NewQuotesFromCSV over the symbol-count map: for each symbol in
the map's iteration order, take that symbol's row count from the remaining
rows in file position (quote.go lines 303-317).  `symsAll` is the first column
of every data row, so `symsAll.count sym` is the count the map holds. -/
def quotesFromRowsGo (symsAll : List Str) : List Str → List Str → List (Quote DateTime)
  | [], _ => []
  | sym :: perm, rows =>
    let c := symsAll.count sym
    mkQuoteMulti sym (rows.take c) :: quotesFromRowsGo symsAll perm (rows.drop c)

/-- NewQuotesFromCSV - parse csv quote string into Quotes array (quote.go
lines 291-319).  Go iterates the symbol-count map with `range`, whose order
is unspecified and randomized; that order is made explicit as the `perm`
argument (a permutation of the distinct first-column symbols). -/
def NewQuotesFromCSV (perm : List Str) (csv : Str) : List (Quote DateTime) :=
  let tmp := goSplit '\n' csv
  let numrows := tmp.length - 1
  let datarows := (tmp.drop 1).take (numrows - 1)
  let symsAll := datarows.map (fun r => fieldOf r 0)
  quotesFromRowsGo symsAll perm datarows

/-- Period - for quote history (quote.go lines 49-68).  Go's Period is a
string type; the constants below are its declared values. -/
def min1P : Str := "60".data

/-- Five-minute period constant. -/
def min5P : Str := "300".data

/-- Fifteen-minute period constant. -/
def min15P : Str := "900".data

/-- Thirty-minute period constant. -/
def min30P : Str := "1800".data

/-- Sixty-minute period constant. -/
def min60P : Str := "3600".data

/-- Daily period constant. -/
def dailyP : Str := "d".data

/-- Weekly period constant. -/
def weeklyP : Str := "w".data

/-- Monthly period constant. -/
def monthlyP : Str := "m".data

/-- Network data a single NewQuoteFromYahoo call consumes: the record the csv
reader yields from the crumb endpoint body, and the parsed csv table of the
download endpoint body (quote.go lines 409-435).  An error anywhere in either
exchange is carried as the error string Go would return. -/
structure YahooNet where
  crumbResp : Except Str (List Str)
  histResp : Except Str (List (List Str))

/-- Parse stage of NewQuoteFromYahoo (quote.go lines 437-469): one output bar
per data row of the 7-column payload (date, open, high, low, close, adjClose,
volume), written in row order; adjustQuote selects the adjusted close verbatim
for OHLC close substitution, otherwise open/high/low are scaled by the raw
close over adjusted close ratio and close is the raw close. -/
def yahooParse (symbol : Str) (adjustQuote : Bool) (csvdata : List (List Str)) : Quote DateTime :=
  let rows := csvdata.drop 1
  { symbol := symbol
    date := rows.map (fun r => (parseDateDay (r.getD 0 [])).getD zeroDT)
    «open» := rows.map (fun r =>
      let o := parseFloatD (r.getD 1 [])
      if adjustQuote then o
      else o * (parseFloatD (r.getD 4 []) / parseFloatD (r.getD 5 [])))
    high := rows.map (fun r =>
      let h := parseFloatD (r.getD 2 [])
      if adjustQuote then h
      else h * (parseFloatD (r.getD 4 []) / parseFloatD (r.getD 5 [])))
    low := rows.map (fun r =>
      let l := parseFloatD (r.getD 3 [])
      if adjustQuote then l
      else l * (parseFloatD (r.getD 4 []) / parseFloatD (r.getD 5 [])))
    close := rows.map (fun r =>
      if adjustQuote then parseFloatD (r.getD 5 [])
      else parseFloatD (r.getD 4 []))
    volume := rows.map (fun r => parseFloatD (r.getD 6 [])) }

/-- NewQuoteFromYahoo - Yahoo historical prices for a symbol (quote.go lines
379-472), instrumented with the number of HTTP requests issued (home page,
crumb endpoint, download endpoint).  A non-daily period is rejected before any
request; afterwards the two session requests are always issued, the crumb is
read, and the download is issued and parsed. -/
def NewQuoteFromYahoo (net : YahooNet) (symbol _startDate _endDate : Str)
    (period : Str) (adjustQuote : Bool) : Quote DateTime × Option Str × Nat :=
  if period ≠ dailyP then
    (NewQuote [] 0, some "Yahoo intraday data no longer supported".data, 0)
  else
    match net.crumbResp with
    | .error e => (NewQuote [] 0, some e, 2)
    | .ok _crumb =>
      match net.histResp with
      | .error e => (NewQuote [] 0, some e, 3)
      | .ok csvdata => (yahooParse symbol adjustQuote csvdata, none, 3)

/-- NewQuotesFromYahooSyms - create a list of prices from symbols in string
array (quote.go lines 560-571): fetch each symbol in order, append the quote
only when the fetch returned no error, and return with a nil error.  The
per-symbol network data is supplied by `net`. -/
def NewQuotesFromYahooSyms (net : Str → YahooNet) (symbols : List Str)
    (startDate endDate : Str) (period : Str) (adjustQuote : Bool) :
    List (Quote DateTime) × Option Str :=
  (symbols.foldl (fun quotes symbol =>
      match NewQuoteFromYahoo (net symbol) symbol startDate endDate period adjustQuote with
      | (quote, none, _) => quotes ++ [quote]
      | (_, some _, _) => quotes) [],
   none)

/-- Parse stage of googleDaily (quote.go lines 597-608): the output is written
with the positional reversal bar = numrows-1-row, columns date (layout
"2-Jan-06"), open, high, low, close, volume. -/
def googleDailyParse (symbol : Str) (csvdata : List (List Str)) : Quote DateTime :=
  let numrows := csvdata.length
  { symbol := symbol
    date := (List.range numrows).map (fun bar =>
      (parseDateGoogle ((csvdata.getD (numrows - 1 - bar) []).getD 0 [])).getD zeroDT)
    «open» := (List.range numrows).map (fun bar =>
      parseFloatD ((csvdata.getD (numrows - 1 - bar) []).getD 1 []))
    high := (List.range numrows).map (fun bar =>
      parseFloatD ((csvdata.getD (numrows - 1 - bar) []).getD 2 []))
    low := (List.range numrows).map (fun bar =>
      parseFloatD ((csvdata.getD (numrows - 1 - bar) []).getD 3 []))
    close := (List.range numrows).map (fun bar =>
      parseFloatD ((csvdata.getD (numrows - 1 - bar) []).getD 4 []))
    volume := (List.range numrows).map (fun bar =>
      parseFloatD ((csvdata.getD (numrows - 1 - bar) []).getD 5 [])) }

/-- One candle of the Gdax payload, a 6-element tuple [time, low, high, open,
close, volume] (quote.go lines 866-867); the timestamp is held as the Unix
seconds the code converts it to. -/
structure GdaxBar where
  t : Int
  lo : Rat
  hi : Rat
  op : Rat
  cl : Rat
  vol : Rat
deriving DecidableEq, Repr

instance : Inhabited GdaxBar := ⟨⟨0, 0, 0, 0, 0, 0⟩⟩

/-- Granularity in seconds selected from the period (quote.go lines 810-827),
including the default of the switch. -/
def gdaxGranularity (period : Str) : Nat :=
  if period = min1P then 60
  else if period = min5P then 5 * 60
  else if period = min15P then 15 * 60
  else if period = min30P then 30 * 60
  else if period = min60P then 60 * 60
  else if period = dailyP then 24 * 60 * 60
  else if period = weeklyP then 7 * 24 * 60 * 60
  else 24 * 60 * 60

/-- One window's contribution in NewQuoteFromGdax (quote.go lines 873-886):
the rows are written with the positional reversal bar = numrows-1-row. -/
def gdaxWindowDates (bars : List GdaxBar) : List Int :=
  (List.range bars.length).map (fun j => (bars.getD (bars.length - 1 - j) default).t)

/-- Closes of one reversed window, same layout as `gdaxWindowDates`. -/
def gdaxWindowCloses (bars : List GdaxBar) : List Rat :=
  (List.range bars.length).map (fun j => (bars.getD (bars.length - 1 - j) default).cl)

/-- The window loop of NewQuoteFromGdax (quote.go lines 845-898), returning
the requested windows and the concatenated timestamp and close sequences.
`fetch s e` is the candle array the endpoint answers for the window [s, e].
The fuel only bounds the iteration count; NewQuoteFromGdax supplies enough,
and exhausted fuel returns what the loop returns when startBar has reached
the end time. -/
def gdaxLoopF (fetch : Int → Int → List GdaxBar) (g : Nat) (endT : Int) :
    Nat → Int → Int → List (Int × Int) × List Int × List Rat
  | 0, _, _ => ([], [], [])
  | fuel+1, startBar, endBar =>
    if startBar < endT then
      let bars := fetch startBar endBar
      let rest := gdaxLoopF fetch g endT fuel (endBar + g) (endBar + g + 200 * g)
      ((startBar, endBar) :: rest.1, gdaxWindowDates bars ++ rest.2.1,
        gdaxWindowCloses bars ++ rest.2.2)
    else ([], [], [])

/-- NewQuoteFromGdax - Gdax historical prices for a symbol (quote.go lines
803-901): the date range, already parsed to Unix seconds, is windowed into
chunks of 200 granularities, the first window end clamped to the overall end;
each window is fetched, reversed and appended.  Returns the window request
list with the concatenated timestamps and closes. -/
def NewQuoteFromGdax (fetch : Int → Int → List GdaxBar) (start endT : Int)
    (period : Str) : List (Int × Int) × List Int × List Rat :=
  let g := gdaxGranularity period
  let endBar0 := min (start + 200 * (g : Int)) endT
  let fuel := ((endT - start).toNat / (201 * g)) + 1
  gdaxLoopF fetch g endT fuel start endBar0

/-- Model of Go's strings.Index for a one-character needle: the index of the
first occurrence, none when absent (Go returns -1, and the slice expression
that consumes it would then panic; no verified claim reaches that case). -/
def strIndex (c : Char) : Str → Option Nat
  | [] => none
  | x :: rest => if x = c then some 0 else (strIndex c rest).map (· + 1)

/-- Data-channel port extraction of getAnonFTP (quote.go lines 1158-1166):
slice the PASV reply between the first "(" (inclusive) and the first ")"
(exclusive), split on commas, and combine the last two fields as p1*256+p2. -/
def pasvPort (message : Str) : Int :=
  match strIndex '(' message, strIndex ')' message with
  | some start, some stop =>
    let s := goSplit ',' ((message.drop start).take (stop - start))
    let l1 := atoiD (s.getD (s.length - 2) [])
    let l2 := atoiD (s.getD (s.length - 1) [])
    l1 * 256 + l2
  | _, _ => 0

/-- Number of digits printed after the decimal point of a formatted field
(none when the field has no point), read back off the text itself. -/
def decCount (s : Str) : Option Nat :=
  match goSplit '.' s with
  | [_] => none
  | [_, f] => some f.length
  | _ => none

/-- In-range calendar fields: what Go's time.Parse accepts back and what the
four-digit year layout can carry. -/
def dateFieldsOK (d : DateTime) : Prop :=
  d.year ≤ 9999 ∧ 1 ≤ d.month ∧ d.month ≤ 12 ∧ 1 ≤ d.day ∧
    d.day ≤ monthDays d.year d.month ∧ d.hour ≤ 23 ∧ d.minute ≤ 59

instance : DecidablePred dateFieldsOK := fun d => by unfold dateFieldsOK; infer_instance

/-- Concrete one-bar quote exercising the delimited codec. -/
def qWit : Quote DateTime :=
  { symbol := "spy".data
    date := [⟨2020, 1, 2, 3, 4, 0⟩]
    «open» := [1.25]
    high := [2.5]
    low := [0.75]
    close := [1.5]
    volume := [100] }

/-- Concrete multi-symbol delimited text: one spy row first, then two aapl
rows, the aapl block ending in close 87.62 (the layout of the spec's grouping
example; the decoder never reads the header or the datetime field here). -/
def csvMultiWit : Str :=
  ("symbol,datetime,open,high,low,close,volume\n" ++
   "spy,d,1,1,1,10.50,1\n" ++
   "aapl,d,1,1,1,87.00,1\n" ++
   "aapl,d,1,1,1,87.62,1\n").data

/-- Concrete 7-column Yahoo payload: header and one data row with raw close 16
and adjusted close 8 (ratio 2). -/
def yahooRowsWit : List (List Str) :=
  [["Date".data, "Open".data, "High".data, "Low".data, "Close".data,
    "Adj Close".data, "Volume".data],
   ["2020-01-02".data, "10".data, "20".data, "5".data, "16".data, "8".data, "1000".data]]

/-- Concrete Yahoo network data whose download payload lists two rows in
descending date order (the upstream order the spec describes). -/
def yahooNetDescWit : YahooNet :=
  { crumbResp := .ok ["crumb".data]
    histResp := .ok
      [["Date".data, "Open".data, "High".data, "Low".data, "Close".data,
        "Adj Close".data, "Volume".data],
       ["2020-01-03".data, "1".data, "1".data, "1".data, "1".data, "1".data, "1".data],
       ["2020-01-02".data, "2".data, "2".data, "2".data, "2".data, "2".data, "2".data]]}

/-- Concrete Google daily payload with two rows in descending date order. -/
def googleRowsWit : List (List Str) :=
  [["3-Jan-06".data, "1".data, "1".data, "1".data, "1".data, "1".data],
   ["2-Jan-06".data, "2".data, "2".data, "2".data, "2".data, "2".data]]

/-- Concrete Gdax endpoint: every window answers two candles, the window end
first and the window start second (descending, both inside the window). -/
def gdaxFetchWit : Int → Int → List GdaxBar :=
  fun s e => [⟨e, 1, 1, 1, 1, 1⟩, ⟨s, 1, 1, 1, 1, 1⟩]

/-! Digit printing and parsing round trips. -/

theorem natDigitsF_irrel : ∀ f1 f2 n, n ≤ f1 → n ≤ f2 → natDigitsF f1 n = natDigitsF f2 n := by
  intro f1
  induction f1 with
  | zero =>
    intro f2 n h1 _h2
    obtain rfl : n = 0 := Nat.le_zero.mp h1
    cases f2 <;> simp [natDigitsF]
  | succ f ih =>
    intro f2 n h1 h2
    cases f2 with
    | zero =>
      obtain rfl : n = 0 := Nat.le_zero.mp h2
      simp [natDigitsF]
    | succ f2 =>
      simp only [natDigitsF]
      by_cases h : n < 10
      · simp [h]
      · have hd : n / 10 < n := Nat.div_lt_self (by omega) (by norm_num)
        simp only [if_neg h]
        rw [ih f2 (n / 10) (by omega) (by omega)]

theorem natDigits_lt10 {n : Nat} (h : n < 10) : natDigits n = [digitChar n] := by
  cases n with
  | zero => rfl
  | succ k => simp [natDigits, natDigitsF, h]

theorem natDigits_ge10 {n : Nat} (h : 10 ≤ n) :
    natDigits n = natDigits (n / 10) ++ [digitChar (n % 10)] := by
  obtain ⟨m, rfl⟩ : ∃ m, n = m + 1 := ⟨n - 1, by omega⟩
  show natDigitsF (m + 1) (m + 1) = _
  simp only [natDigitsF, if_neg (show ¬ m + 1 < 10 by omega)]
  congr 1
  have hd : (m + 1) / 10 < m + 1 := Nat.div_lt_self (by omega) (by norm_num)
  exact natDigitsF_irrel m ((m + 1) / 10) ((m + 1) / 10) (by omega) le_rfl

theorem digitVal_digitChar {d : Nat} (h : d < 10) : digitVal (digitChar d) = d := by
  interval_cases d <;> rfl

theorem isDigit_digitChar {d : Nat} (h : d < 10) : (digitChar d).isDigit = true := by
  interval_cases d <;> rfl

theorem digValN_snoc (s : Str) (c : Char) :
    digValN (s ++ [c]) = digValN s * 10 + digitVal c := by
  simp [digValN, List.foldl_append]

theorem digValN_natDigits (n : Nat) : digValN (natDigits n) = n := by
  induction n using Nat.strong_induction_on with
  | _ n ih =>
    by_cases h : n < 10
    · rw [natDigits_lt10 h]
      show 0 * 10 + digitVal (digitChar n) = n
      rw [digitVal_digitChar h]; omega
    · rw [natDigits_ge10 (le_of_not_lt h), digValN_snoc,
        ih (n / 10) (Nat.div_lt_self (by omega) (by norm_num)),
        digitVal_digitChar (Nat.mod_lt n (by norm_num))]
      omega

theorem natDigits_all_isDigit (n : Nat) : ∀ c ∈ natDigits n, c.isDigit = true := by
  induction n using Nat.strong_induction_on with
  | _ n ih =>
    by_cases h : n < 10
    · rw [natDigits_lt10 h]
      intro c hc
      simp only [List.mem_singleton] at hc
      subst hc
      exact isDigit_digitChar h
    · rw [natDigits_ge10 (le_of_not_lt h)]
      intro c hc
      rcases List.mem_append.mp hc with h1 | h2
      · exact ih (n / 10) (Nat.div_lt_self (by omega) (by norm_num)) c h1
      · simp only [List.mem_singleton] at h2
        subst h2
        exact isDigit_digitChar (Nat.mod_lt n (by norm_num))

theorem natDigits_ne_nil (n : Nat) : natDigits n ≠ [] := by
  by_cases h : n < 10
  · rw [natDigits_lt10 h]; simp
  · rw [natDigits_ge10 (le_of_not_lt h)]; simp

theorem natDigits_cons (n : Nat) :
    ∃ c r, natDigits n = c :: r ∧ c.isDigit = true := by
  cases hd : natDigits n with
  | nil => exact absurd hd (natDigits_ne_nil n)
  | cons c r =>
    exact ⟨c, r, rfl, natDigits_all_isDigit n c (hd ▸ List.mem_cons_self c r)⟩

theorem natDigits_length_le {k n : Nat} (h : n < 10 ^ k) :
    (natDigits n).length ≤ max 1 k := by
  induction k generalizing n with
  | zero =>
    obtain rfl : n = 0 := by simpa using h
    rw [natDigits_lt10 (by norm_num)]; simp
  | succ k ih =>
    by_cases h10 : n < 10
    · rw [natDigits_lt10 h10]; simp
    · rw [natDigits_ge10 (le_of_not_lt h10)]
      have hdiv : n / 10 < 10 ^ k := by
        rw [Nat.div_lt_iff_lt_mul (by norm_num)]
        calc n < 10 ^ (k + 1) := h
        _ = 10 ^ k * 10 := by ring
      have hk : 1 ≤ k := by
        by_contra hk
        have hk0 : k = 0 := by omega
        subst hk0
        simp only [pow_zero] at hdiv
        omega
      have := ih hdiv
      simp only [List.length_append, List.length_singleton]
      omega

/-! Padding lemmas. -/

theorem padLeft_length {w : Nat} {s : Str} (h : s.length ≤ w) :
    (padLeft w s).length = w := by
  simp only [padLeft, List.length_append, List.length_replicate]
  omega

theorem foldl_digit_zeros (k : Nat) :
    (List.replicate k '0').foldl (fun a c => a * 10 + digitVal c) 0 = 0 := by
  induction k with
  | zero => rfl
  | succ k ih =>
    rw [List.replicate_succ, List.foldl_cons]
    have h0 : (0 : Nat) * 10 + digitVal '0' = 0 := rfl
    rw [h0, ih]

theorem digValN_padLeft (w : Nat) (s : Str) : digValN (padLeft w s) = digValN s := by
  simp only [padLeft, digValN, List.foldl_append, foldl_digit_zeros]

theorem padLeft_all_isDigit {w : Nat} {s : Str} (h : ∀ c ∈ s, c.isDigit = true) :
    ∀ c ∈ padLeft w s, c.isDigit = true := by
  intro c hc
  rcases List.mem_append.mp hc with h1 | h2
  · rw [List.eq_of_mem_replicate h1]; rfl
  · exact h c h2

/-! Split lemmas: goSplit inverts concatenation with separators. -/

theorem goSplit_ne_nil (sep : Char) (s : Str) : goSplit sep s ≠ [] := by
  cases s with
  | nil => simp [goSplit]
  | cons c rest =>
    simp only [goSplit]
    cases hr : goSplit sep rest with
    | nil => simp
    | cons r rs => by_cases h : c = sep <;> simp [h]

theorem goSplit_not_mem {sep : Char} {s : Str} (h : sep ∉ s) : goSplit sep s = [s] := by
  induction s with
  | nil => rfl
  | cons c rest ih =>
    have hc : ¬ c = sep := fun e => h (e ▸ List.mem_cons_self c rest)
    have hrest : sep ∉ rest := fun m => h (List.mem_cons_of_mem c m)
    simp only [goSplit, ih hrest]
    simp [hc]

theorem goSplit_append {sep : Char} {a : Str} (b : Str) (h : sep ∉ a) :
    goSplit sep (a ++ sep :: b) = a :: goSplit sep b := by
  induction a with
  | nil =>
    simp only [List.nil_append, goSplit]
    cases hg : goSplit sep b with
    | nil => exact absurd hg (goSplit_ne_nil sep b)
    | cons r rs => simp
  | cons c rest ih =>
    have hc : ¬ c = sep := fun e => h (e ▸ List.mem_cons_self c rest)
    have hrest : sep ∉ rest := fun m => h (List.mem_cons_of_mem c m)
    simp only [List.cons_append, goSplit, List.append_eq]
    rw [ih hrest]
    simp [hc]

theorem goSplit_flatten_append {sep : Char} (ls : List Str) (t : Str)
    (h : ∀ l ∈ ls, sep ∉ l) :
    goSplit sep ((ls.map (fun l => l ++ [sep])).flatten ++ t) = ls ++ goSplit sep t := by
  induction ls with
  | nil => simp
  | cons l rest ih =>
    simp only [List.map_cons, List.flatten_cons, List.append_assoc]
    have hre : l ++ ([sep] ++ ((rest.map (fun l => l ++ [sep])).flatten ++ t)) =
        l ++ sep :: ((rest.map (fun l => l ++ [sep])).flatten ++ t) := by simp
    rw [hre, goSplit_append _ (h l (List.mem_cons_self l rest)),
      ih (fun x hx => h x (List.mem_cons_of_mem l hx))]
    rfl

theorem goSplit_flatten_lines {sep : Char} (ls : List Str) (h : ∀ l ∈ ls, sep ∉ l) :
    goSplit sep ((ls.map (fun l => l ++ [sep])).flatten) = ls ++ [[]] := by
  have := goSplit_flatten_append ls [] h
  simpa using this

/-! Character classes of the formatted fields (no separators can occur). -/

theorem not_dot_of_isDigit {c : Char} (h : c.isDigit = true) : ¬ c = '.' := by
  intro e; subst e; simp at h

theorem mem_fmtDecN {p m : Nat} {c : Char} (hc : c ∈ fmtDecN p m) :
    c.isDigit = true ∨ c = '.' := by
  unfold fmtDecN at hc
  by_cases hp : p = 0
  · rw [if_pos hp] at hc
    exact Or.inl (natDigits_all_isDigit m c hc)
  · rw [if_neg hp] at hc
    rcases List.mem_append.mp hc with h1 | h2
    · exact Or.inl (natDigits_all_isDigit _ c h1)
    · rcases List.mem_cons.mp h2 with h3 | h4
      · exact Or.inr h3
      · exact Or.inl (padLeft_all_isDigit (natDigits_all_isDigit _) c h4)

theorem mem_fmtDec {p : Nat} {x : Rat} {c : Char} (hc : c ∈ fmtDec p x) :
    c.isDigit = true ∨ c = '.' ∨ c = '-' := by
  unfold fmtDec at hc
  rcases List.mem_append.mp hc with h1 | h2
  · right; right
    rcases (show (round (x * (10 : Rat) ^ p) : Int) < 0 ∨ ¬ (round (x * (10 : Rat) ^ p) : Int) < 0 from
      Decidable.em _) with hneg | hneg
    · rw [if_pos hneg] at h1
      simpa using h1
    · rw [if_neg hneg] at h1
      simp at h1
  · rcases mem_fmtDecN h2 with h | h
    · exact Or.inl h
    · exact Or.inr (Or.inl h)

theorem fmtDec_not_comma {p : Nat} {x : Rat} : ',' ∉ fmtDec p x := by
  intro hm
  rcases mem_fmtDec hm with h | h | h <;> simp at h

theorem fmtDec_not_nl {p : Nat} {x : Rat} : '\n' ∉ fmtDec p x := by
  intro hm
  rcases mem_fmtDec hm with h | h | h <;> simp at h

/-! Round trip of fixed-precision formatting through ParseFloat. -/

theorem parseUF_fmtDecN (p m : Nat) :
    parseUF (fmtDecN p m) = some ((m : Rat) / (10 : Rat) ^ p) := by
  by_cases hp : p = 0
  · subst hp
    unfold fmtDecN parseUF
    rw [if_pos rfl]
    rw [goSplit_not_mem (fun hmem =>
      not_dot_of_isDigit (natDigits_all_isDigit m '.' hmem) rfl)]
    have hne : (natDigits m).isEmpty = false := by
      cases hd : natDigits m with
      | nil => exact absurd hd (natDigits_ne_nil m)
      | cons c r => rfl
    simp [hne, List.all_eq_true.mpr (natDigits_all_isDigit m), digValN_natDigits]
  · have hlen : (natDigits (m % 10 ^ p)).length ≤ p := by
      have h1 := natDigits_length_le (k := p) (Nat.mod_lt m (by positivity))
      have h2 : max 1 p = p := by omega
      omega
    unfold fmtDecN parseUF
    rw [if_neg hp]
    have hnm1 : '.' ∉ natDigits (m / 10 ^ p) := fun hmem =>
      not_dot_of_isDigit (natDigits_all_isDigit _ '.' hmem) rfl
    have hnm2 : '.' ∉ padLeft p (natDigits (m % 10 ^ p)) := fun hmem =>
      not_dot_of_isDigit (padLeft_all_isDigit (natDigits_all_isDigit _) '.' hmem) rfl
    rw [goSplit_append _ hnm1, goSplit_not_mem hnm2]
    have hall1 := List.all_eq_true.mpr (natDigits_all_isDigit (m / 10 ^ p))
    have hall2 := List.all_eq_true.mpr
      (padLeft_all_isDigit (w := p) (natDigits_all_isDigit (m % 10 ^ p)))
    have hne : (natDigits (m / 10 ^ p) ++ padLeft p (natDigits (m % 10 ^ p))).isEmpty = false := by
      cases hd : natDigits (m / 10 ^ p) with
      | nil => exact absurd hd (natDigits_ne_nil _)
      | cons c r => rfl
    have hval : ((digValN (natDigits (m / 10 ^ p)) : Nat) : Rat) +
        ((digValN (padLeft p (natDigits (m % 10 ^ p))) : Nat) : Rat) /
          (10 : Rat) ^ (padLeft p (natDigits (m % 10 ^ p))).length
        = (m : Rat) / (10 : Rat) ^ p := by
      rw [digValN_natDigits, digValN_padLeft, digValN_natDigits, padLeft_length hlen]
      have hc : ((10 : Rat) ^ p) ≠ 0 := by positivity
      rw [eq_div_iff hc, add_mul, div_mul_cancel₀ _ hc]
      have h3 : m / 10 ^ p * 10 ^ p + m % 10 ^ p = m := by
        rw [mul_comm]
        exact Nat.div_add_mod m (10 ^ p)
      exact_mod_cast h3
    simp [hne, hall1, hall2, hval]

theorem parseFloatD_cons_digit {c : Char} {rest : Str} (h : c.isDigit = true) :
    parseFloatD (c :: rest) = (parseUF (c :: rest)).getD 0 := by
  have h1 : ¬ c = '-' := by intro e; subst e; simp at h
  have h2 : ¬ c = '+' := by intro e; subst e; simp at h
  simp [parseFloatD, h1, h2]

theorem fmtDecN_cons (p m : Nat) : ∃ c r, fmtDecN p m = c :: r ∧ c.isDigit = true := by
  unfold fmtDecN
  by_cases hp : p = 0
  · rw [if_pos hp]; exact natDigits_cons m
  · rw [if_neg hp]
    obtain ⟨c, r, hd, hdig⟩ := natDigits_cons (m / 10 ^ p)
    exact ⟨c, r ++ '.' :: padLeft p (natDigits (m % 10 ^ p)), by rw [hd]; rfl, hdig⟩

theorem fmtDec_shape (p : Nat) (x : Rat) :
    fmtDec p x = (if (round (x * (10 : Rat) ^ p) : Int) < 0 then ['-'] else []) ++
      fmtDecN p (round (x * (10 : Rat) ^ p)).natAbs := rfl

theorem parseFloatD_fmtDec (p : Nat) (x : Rat) :
    parseFloatD (fmtDec p x) = ((round (x * (10 : Rat) ^ p) : Int) : Rat) / (10 : Rat) ^ p := by
  rw [fmtDec_shape]
  by_cases hneg : (round (x * (10 : Rat) ^ p) : Int) < 0
  · rw [if_pos hneg]
    have hstep : parseFloatD ('-' :: fmtDecN p (round (x * (10 : Rat) ^ p)).natAbs) =
        -((parseUF (fmtDecN p (round (x * (10 : Rat) ^ p)).natAbs)).getD 0) := by
      simp [parseFloatD]
    simp only [List.singleton_append, hstep, parseUF_fmtDecN, Option.getD_some]
    rw [Int.cast_natAbs, abs_of_neg hneg]
    push_cast
    ring
  · rw [if_neg hneg]
    simp only [List.nil_append]
    obtain ⟨c, r, hd, hdig⟩ := fmtDecN_cons p (round (x * (10 : Rat) ^ p)).natAbs
    rw [hd, parseFloatD_cons_digit hdig, ← hd, parseUF_fmtDecN]
    simp only [Option.getD_some]
    rw [Int.cast_natAbs, abs_of_nonneg (not_lt.mp hneg)]

theorem atoiD_natDigits (n : Nat) : atoiD (natDigits n) = (n : Int) := by
  obtain ⟨c, r, hd, hdig⟩ := natDigits_cons n
  have h1 : ¬ c = '-' := by intro e; subst e; simp at hdig
  have h2 : ¬ c = '+' := by intro e; subst e; simp at hdig
  have hall : (c :: r).all Char.isDigit = true := by
    rw [← hd]; exact List.all_eq_true.mpr (natDigits_all_isDigit n)
  have hval : digValN (c :: r) = n := by rw [← hd]; exact digValN_natDigits n
  rw [hd]
  simp [atoiD, h1, h2, hall, hval]

/-! Decimal-place counting on formatted fields. -/

theorem decCount_fmtDec_pos {p : Nat} (hp : 1 ≤ p) (x : Rat) :
    decCount (fmtDec p x) = some p := by
  rw [fmtDec_shape]
  unfold decCount fmtDecN
  rw [if_neg (by omega : ¬ p = 0)]
  set n := round (x * (10 : Rat) ^ p) with hn
  have hnm1 : '.' ∉ (if n < 0 then ['-'] else []) ++ natDigits (n.natAbs / 10 ^ p) := by
    intro hmem
    rcases List.mem_append.mp hmem with hm | hm
    · by_cases hc : n < 0
      · rw [if_pos hc] at hm; simp at hm
      · rw [if_neg hc] at hm; simp at hm
    · exact not_dot_of_isDigit (natDigits_all_isDigit _ '.' hm) rfl
  have hnm2 : '.' ∉ padLeft p (natDigits (n.natAbs % 10 ^ p)) := fun hmem =>
    not_dot_of_isDigit (padLeft_all_isDigit (natDigits_all_isDigit _) '.' hmem) rfl
  have hre : (if n < 0 then ['-'] else []) ++ (natDigits (n.natAbs / 10 ^ p) ++
      '.' :: padLeft p (natDigits (n.natAbs % 10 ^ p))) =
      ((if n < 0 then ['-'] else []) ++ natDigits (n.natAbs / 10 ^ p)) ++
      '.' :: padLeft p (natDigits (n.natAbs % 10 ^ p)) := by
    rw [List.append_assoc]
  rw [hre, goSplit_append _ hnm1, goSplit_not_mem hnm2]
  have hlen : (natDigits (n.natAbs % 10 ^ p)).length ≤ p := by
    have h1 := natDigits_length_le (k := p) (Nat.mod_lt n.natAbs (by positivity))
    omega
  simp [padLeft_length hlen]

theorem decCount_fmtDec_zero (x : Rat) : decCount (fmtDec 0 x) = none := by
  rw [fmtDec_shape]
  unfold decCount fmtDecN
  rw [if_pos rfl]
  set n := round (x * (10 : Rat) ^ 0) with hn
  have hnm : '.' ∉ (if n < 0 then ['-'] else []) ++ natDigits n.natAbs := by
    intro hmem
    rcases List.mem_append.mp hmem with hm | hm
    · by_cases hc : n < 0
      · rw [if_pos hc] at hm; simp at hm
      · rw [if_neg hc] at hm; simp at hm
    · exact not_dot_of_isDigit (natDigits_all_isDigit _ '.' hm) rfl
  rw [goSplit_not_mem hnm]

/-! Date format and parse round trip. -/

theorem monthDays_le_31 (y m : Nat) : monthDays y m ≤ 31 := by
  unfold monthDays
  split_ifs <;> omega

theorem takeDigitsK_pad {k n : Nat} (rest : Str) (hlen : (natDigits n).length ≤ k) :
    takeDigitsK k (padLeft k (natDigits n) ++ rest) = some (n, rest) := by
  unfold takeDigitsK
  have hl : (padLeft k (natDigits n)).length = k := padLeft_length hlen
  rw [List.take_left' hl, List.drop_left' hl]
  have hall := List.all_eq_true.mpr (padLeft_all_isDigit (w := k) (natDigits_all_isDigit n))
  simp [hl, hall, digValN_padLeft, digValN_natDigits]

theorem expectC_cons (c : Char) (rest : Str) : expectC c (c :: rest) = some rest := by
  simp [expectC]

theorem takeDigitsK_pad_nil {k n : Nat} (hlen : (natDigits n).length ≤ k) :
    takeDigitsK k (padLeft k (natDigits n)) = some (n, []) := by
  have h := takeDigitsK_pad (k := k) (n := n) [] hlen
  simpa using h

theorem parseDateMin_fmtDateMin {d : DateTime} (h : dateFieldsOK d) :
    parseDateMin (fmtDateMin d) = some ⟨d.year, d.month, d.day, d.hour, d.minute, 0⟩ := by
  obtain ⟨h1, h2, h3, h4, h5, h6, h7⟩ := h
  have l4 : (natDigits d.year).length ≤ 4 := by
    have := natDigits_length_le (k := 4) (show d.year < 10 ^ 4 by norm_num; omega)
    omega
  have lmo : (natDigits d.month).length ≤ 2 := by
    have := natDigits_length_le (k := 2) (show d.month < 10 ^ 2 by norm_num; omega)
    omega
  have lda : (natDigits d.day).length ≤ 2 := by
    have hmd := monthDays_le_31 d.year d.month
    have := natDigits_length_le (k := 2) (show d.day < 10 ^ 2 by norm_num; omega)
    omega
  have lho : (natDigits d.hour).length ≤ 2 := by
    have := natDigits_length_le (k := 2) (show d.hour < 10 ^ 2 by norm_num; omega)
    omega
  have lmi : (natDigits d.minute).length ≤ 2 := by
    have := natDigits_length_le (k := 2) (show d.minute < 10 ^ 2 by norm_num; omega)
    omega
  have hsh : fmtDateMin d = padLeft 4 (natDigits d.year) ++ '-' ::
      (padLeft 2 (natDigits d.month) ++ '-' :: (padLeft 2 (natDigits d.day) ++ ' ' ::
        (padLeft 2 (natDigits d.hour) ++ ':' :: padLeft 2 (natDigits d.minute)))) := by
    simp [fmtDateMin, pad4, pad2]
  unfold parseDateMin
  rw [hsh, takeDigitsK_pad _ l4]
  simp only [Option.bind_eq_bind, Option.some_bind]
  rw [expectC_cons]
  simp only [Option.some_bind]
  rw [takeDigitsK_pad _ lmo]
  simp only [Option.some_bind]
  rw [expectC_cons]
  simp only [Option.some_bind]
  rw [takeDigitsK_pad _ lda]
  simp only [Option.some_bind]
  rw [expectC_cons]
  simp only [Option.some_bind]
  rw [takeDigitsK_pad _ lho]
  simp only [Option.some_bind]
  rw [expectC_cons]
  simp only [Option.some_bind]
  rw [takeDigitsK_pad_nil lmi]
  simp only [Option.some_bind]
  simp [h2, h3, h4, h5, h6, h7]

/-! Character classes of formatted dates; the CSV separators cannot occur. -/

theorem fmtDateMin_shape (d : DateTime) :
    fmtDateMin d = padLeft 4 (natDigits d.year) ++ '-' ::
      (padLeft 2 (natDigits d.month) ++ '-' :: (padLeft 2 (natDigits d.day) ++ ' ' ::
        (padLeft 2 (natDigits d.hour) ++ ':' :: padLeft 2 (natDigits d.minute)))) := by
  simp [fmtDateMin, pad4, pad2]

theorem fmtDateMin_chars {d : DateTime} {c : Char} (hc : c ∈ fmtDateMin d) :
    c.isDigit = true ∨ c = '-' ∨ c = ' ' ∨ c = ':' := by
  rw [fmtDateMin_shape] at hc
  have hp : ∀ {w n : Nat}, c ∈ padLeft w (natDigits n) → c.isDigit = true :=
    fun h => padLeft_all_isDigit (natDigits_all_isDigit _) c h
  rcases List.mem_append.mp hc with h | h
  · exact Or.inl (hp h)
  rcases List.mem_cons.mp h with h | h
  · exact Or.inr (Or.inl h)
  rcases List.mem_append.mp h with h | h
  · exact Or.inl (hp h)
  rcases List.mem_cons.mp h with h | h
  · exact Or.inr (Or.inl h)
  rcases List.mem_append.mp h with h | h
  · exact Or.inl (hp h)
  rcases List.mem_cons.mp h with h | h
  · exact Or.inr (Or.inr (Or.inl h))
  rcases List.mem_append.mp h with h | h
  · exact Or.inl (hp h)
  rcases List.mem_cons.mp h with h | h
  · exact Or.inr (Or.inr (Or.inr h))
  exact Or.inl (hp h)

theorem fmtDateMin_not_comma (d : DateTime) : ',' ∉ fmtDateMin d := by
  intro hc
  rcases fmtDateMin_chars hc with h | h | h | h <;> revert h <;> decide

theorem fmtDateMin_not_nl (d : DateTime) : '\n' ∉ fmtDateMin d := by
  intro hc
  rcases fmtDateMin_chars hc with h | h | h | h <;> revert h <;> decide

/-! The bar lines of the delimited encoders split back into their fields. -/

theorem csvLine_shape (q : Quote DateTime) (i : Nat) :
    csvLine q i = fmtDateMin (q.date.getD i zeroDT) ++ ',' ::
      (fmtDec 2 (q.«open».getD i 0) ++ ',' :: (fmtDec 2 (q.high.getD i 0) ++ ',' ::
        (fmtDec 2 (q.low.getD i 0) ++ ',' :: (fmtDec 2 (q.close.getD i 0) ++ ',' ::
          fmtDec 6 (q.volume.getD i 0))))) := by
  simp [csvLine]

theorem csvLine_fields (q : Quote DateTime) (i : Nat) :
    goSplit ',' (csvLine q i) =
      [fmtDateMin (q.date.getD i zeroDT), fmtDec 2 (q.«open».getD i 0),
       fmtDec 2 (q.high.getD i 0), fmtDec 2 (q.low.getD i 0),
       fmtDec 2 (q.close.getD i 0), fmtDec 6 (q.volume.getD i 0)] := by
  rw [csvLine_shape, goSplit_append _ (fmtDateMin_not_comma _),
    goSplit_append _ fmtDec_not_comma, goSplit_append _ fmtDec_not_comma,
    goSplit_append _ fmtDec_not_comma, goSplit_append _ fmtDec_not_comma,
    goSplit_not_mem fmtDec_not_comma]

theorem csvLine_not_nl (q : Quote DateTime) (i : Nat) : '\n' ∉ csvLine q i := by
  rw [csvLine_shape]
  intro hc
  rcases List.mem_append.mp hc with h | h
  · exact fmtDateMin_not_nl _ h
  rcases List.mem_cons.mp h with h | h
  · exact absurd h (by decide)
  rcases List.mem_append.mp h with h | h
  · exact fmtDec_not_nl h
  rcases List.mem_cons.mp h with h | h
  · exact absurd h (by decide)
  rcases List.mem_append.mp h with h | h
  · exact fmtDec_not_nl h
  rcases List.mem_cons.mp h with h | h
  · exact absurd h (by decide)
  rcases List.mem_append.mp h with h | h
  · exact fmtDec_not_nl h
  rcases List.mem_cons.mp h with h | h
  · exact absurd h (by decide)
  rcases List.mem_append.mp h with h | h
  · exact fmtDec_not_nl h
  rcases List.mem_cons.mp h with h | h
  · exact absurd h (by decide)
  exact fmtDec_not_nl h

theorem goSplit_quoteCSV (q : Quote DateTime) :
    goSplit '\n' q.CSV =
      csvHeader :: ((List.range q.close.length).map (csvLine q) ++ [[]]) := by
  unfold Quote.CSV
  have hh : '\n' ∉ csvHeader := by decide
  have hmap : (List.range q.close.length).map (fun i => csvLine q i ++ ['\n']) =
      ((List.range q.close.length).map (csvLine q)).map (fun l => l ++ ['\n']) := by
    rw [List.map_map]; rfl
  have hlines : ∀ l ∈ (List.range q.close.length).map (csvLine q), '\n' ∉ l := by
    intro l hl
    obtain ⟨i, _, rfl⟩ := List.mem_map.mp hl
    exact csvLine_not_nl q i
  rw [hmap, goSplit_append _ hh, goSplit_flatten_lines _ hlines]

/-! List indexing helpers. -/

theorem map_range_getD_f {α β : Type} (l : List α) (d : α) (f : α → β) :
    (List.range l.length).map (fun i => f (l.getD i d)) = l.map f := by
  apply List.ext_getElem
  · simp
  · intro i h1 h2
    simp only [List.getElem_map, List.getElem_range]
    rw [List.getD_eq_getElem l d (by simpa using h1)]

theorem map_range_getD_id {α : Type} (l : List α) (d : α) :
    (List.range l.length).map (fun i => l.getD i d) = l := by
  have h := map_range_getD_f l d id
  simpa using h

theorem map_range_getD_round (l : List Rat) (m : Rat) :
    (List.range l.length).map (fun i => ((round ((l.getD i 0) * m) : Int) : Rat) / m) =
      l.map (fun x => ((round (x * m) : Int) : Rat) / m) :=
  map_range_getD_f l 0 (fun x => ((round (x * m) : Int) : Rat) / m)

theorem map_range_rev {α β : Type} (l : List α) (d : α) (f : α → β) :
    (List.range l.length).map (fun j => f (l.getD (l.length - 1 - j) d)) =
      (l.map f).reverse := by
  apply List.ext_getElem
  · simp
  · intro i h1 h2
    have hi : i < l.length := by simpa using h1
    simp only [List.getElem_map, List.getElem_range, List.getElem_reverse, List.length_map]
    rw [List.getD_eq_getElem l d (by omega)]

theorem csv_decode_rows (q : Quote DateTime) :
    ((goSplit '\n' q.CSV).drop 1).take ((goSplit '\n' q.CSV).length - 1 - 1) =
      (List.range q.close.length).map (csvLine q) := by
  have hL : ((List.range q.close.length).map (csvLine q)).length = q.close.length := by simp
  rw [goSplit_quoteCSV]
  have hlen : (csvHeader :: ((List.range q.close.length).map (csvLine q) ++ [[]])).length
      = q.close.length + 2 := by simp
  rw [hlen]
  have hdrop : (csvHeader :: ((List.range q.close.length).map (csvLine q) ++ [[]])).drop 1
      = (List.range q.close.length).map (csvLine q) ++ [[]] := rfl
  rw [hdrop]
  have hnum : q.close.length + 2 - 1 - 1 = q.close.length := by omega
  rw [hnum, List.take_left' hL]

/-- C1, amended: decoding the delimited text produced by encoding a Quote
with at least one bar yields a Quote whose symbol is the empty string (the
decoder builds the result over the empty symbol regardless of its argument)
and whose bar count and remaining fields match the encoded quote at the
stated precision: dates to the minute, open/high/low/close rounded to two
decimals, volume rounded to six decimals. -/
theorem c1_round_trip_amended (q : Quote DateTime) (hwf : q.WF)
    (hbars : 1 ≤ q.close.length)
    (hdate : ∀ d ∈ q.date, dateFieldsOK d ∧ d.sec = 0) :
    NewQuoteFromCSV q.symbol q.CSV =
      { symbol := []
        date := q.date
        «open» := q.«open».map (fun x => ((round (x * 100) : Int) : Rat) / 100)
        high := q.high.map (fun x => ((round (x * 100) : Int) : Rat) / 100)
        low := q.low.map (fun x => ((round (x * 100) : Int) : Rat) / 100)
        close := q.close.map (fun x => ((round (x * 100) : Int) : Rat) / 100)
        volume := q.volume.map (fun x => ((round (x * 1000000) : Int) : Rat) / 1000000) } := by
  obtain ⟨hld, hlo, hlh, hll, hlv⟩ := hwf
  simp only [NewQuoteFromCSV]
  rw [csv_decode_rows]
  simp only [Quote.mk.injEq]
  refine ⟨trivial, ?_, ?_, ?_, ?_, ?_, ?_⟩
  · rw [List.map_map]
    have h1 : ∀ i ∈ List.range q.close.length,
        ((fun r => (parseDateMin (fieldOf r 0)).getD zeroDT) ∘ csvLine q) i =
          q.date.getD i zeroDT := by
      intro i hi
      simp only [Function.comp_apply]
      unfold fieldOf
      rw [csvLine_fields]
      show (parseDateMin (fmtDateMin (q.date.getD i zeroDT))).getD zeroDT = _
      have hi2 : i < q.date.length := by rw [hld]; simpa using hi
      have hmem : q.date.getD i zeroDT ∈ q.date := by
        rw [List.getD_eq_getElem q.date zeroDT hi2]
        exact List.getElem_mem hi2
      obtain ⟨hok, hsec⟩ := hdate _ hmem
      rw [parseDateMin_fmtDateMin hok, Option.getD_some, ← hsec]
    rw [List.map_congr_left h1, ← hld]
    exact map_range_getD_id q.date zeroDT
  · rw [List.map_map]
    have h1 : ∀ i ∈ List.range q.close.length,
        ((fun r => parseFloatD (fieldOf r 1)) ∘ csvLine q) i =
          ((round ((q.«open».getD i 0) * 100) : Int) : Rat) / 100 := by
      intro i _
      simp only [Function.comp_apply]
      unfold fieldOf
      rw [csvLine_fields]
      show parseFloatD (fmtDec 2 (q.«open».getD i 0)) = _
      rw [parseFloatD_fmtDec]
      norm_num
    rw [List.map_congr_left h1, ← hlo]
    exact map_range_getD_round q.«open» 100
  · rw [List.map_map]
    have h1 : ∀ i ∈ List.range q.close.length,
        ((fun r => parseFloatD (fieldOf r 2)) ∘ csvLine q) i =
          ((round ((q.high.getD i 0) * 100) : Int) : Rat) / 100 := by
      intro i _
      simp only [Function.comp_apply]
      unfold fieldOf
      rw [csvLine_fields]
      show parseFloatD (fmtDec 2 (q.high.getD i 0)) = _
      rw [parseFloatD_fmtDec]
      norm_num
    rw [List.map_congr_left h1, ← hlh]
    exact map_range_getD_round q.high 100
  · rw [List.map_map]
    have h1 : ∀ i ∈ List.range q.close.length,
        ((fun r => parseFloatD (fieldOf r 3)) ∘ csvLine q) i =
          ((round ((q.low.getD i 0) * 100) : Int) : Rat) / 100 := by
      intro i _
      simp only [Function.comp_apply]
      unfold fieldOf
      rw [csvLine_fields]
      show parseFloatD (fmtDec 2 (q.low.getD i 0)) = _
      rw [parseFloatD_fmtDec]
      norm_num
    rw [List.map_congr_left h1, ← hll]
    exact map_range_getD_round q.low 100
  · rw [List.map_map]
    have h1 : ∀ i ∈ List.range q.close.length,
        ((fun r => parseFloatD (fieldOf r 4)) ∘ csvLine q) i =
          ((round ((q.close.getD i 0) * 100) : Int) : Rat) / 100 := by
      intro i _
      simp only [Function.comp_apply]
      unfold fieldOf
      rw [csvLine_fields]
      show parseFloatD (fmtDec 2 (q.close.getD i 0)) = _
      rw [parseFloatD_fmtDec]
      norm_num
    rw [List.map_congr_left h1]
    exact map_range_getD_round q.close 100
  · rw [List.map_map]
    have h1 : ∀ i ∈ List.range q.close.length,
        ((fun r => parseFloatD (fieldOf r 5)) ∘ csvLine q) i =
          ((round ((q.volume.getD i 0) * 1000000) : Int) : Rat) / 1000000 := by
      intro i _
      simp only [Function.comp_apply]
      unfold fieldOf
      rw [csvLine_fields]
      show parseFloatD (fmtDec 6 (q.volume.getD i 0)) = _
      rw [parseFloatD_fmtDec]
      norm_num
    rw [List.map_congr_left h1, ← hlv]
    exact map_range_getD_round q.volume 1000000

/-- Witness: the amended C1 theorem applied to the concrete one-bar quote. -/
theorem c1_round_trip_amended_witness :
    qWit.WF ∧ 1 ≤ qWit.close.length ∧ (∀ d ∈ qWit.date, dateFieldsOK d ∧ d.sec = 0) ∧
      NewQuoteFromCSV qWit.symbol qWit.CSV =
        { symbol := []
          date := qWit.date
          «open» := qWit.«open».map (fun x => ((round (x * 100) : Int) : Rat) / 100)
          high := qWit.high.map (fun x => ((round (x * 100) : Int) : Rat) / 100)
          low := qWit.low.map (fun x => ((round (x * 100) : Int) : Rat) / 100)
          close := qWit.close.map (fun x => ((round (x * 100) : Int) : Rat) / 100)
          volume := qWit.volume.map (fun x => ((round (x * 1000000) : Int) : Rat) / 1000000) } := by
  have hwf : qWit.WF := ⟨rfl, rfl, rfl, rfl, rfl⟩
  have hb : (1 : Nat) ≤ qWit.close.length := by decide
  have hd : ∀ d ∈ qWit.date, dateFieldsOK d ∧ d.sec = 0 := by decide
  exact ⟨hwf, hb, hd, c1_round_trip_amended qWit hwf hb hd⟩

/-- Counterexample to C1 as stated: the round trip does not return an equal
Quote, because the decoder discards the symbol; decoding the encoding of the
one-bar quote with symbol "spy" yields a different Quote. -/
theorem c1_counterexample : NewQuoteFromCSV qWit.symbol qWit.CSV ≠ qWit := by
  intro h
  have hs := congrArg Quote.symbol h
  revert hs
  with_unfolding_all decide

/-- C10: the single-series delimited decoder ignores its symbol argument; the
returned quote's symbol is always the empty string. -/
theorem c10_symbol_always_empty (symbol csv : Str) :
    (NewQuoteFromCSV symbol csv).symbol = [] := rfl

/-! Multi-symbol encoder line structure (for C9). -/

theorem csvLineMulti_shape (q : Quote DateTime) (i : Nat) :
    csvLineMulti q i = q.symbol ++ ',' :: (fmtDateMin (q.date.getD i zeroDT) ++ ',' ::
      (fmtDec 2 (q.«open».getD i 0) ++ ',' :: (fmtDec 2 (q.high.getD i 0) ++ ',' ::
        (fmtDec 2 (q.low.getD i 0) ++ ',' :: (fmtDec 2 (q.close.getD i 0) ++ ',' ::
          fmtDec 0 (q.volume.getD i 0)))))) := by
  simp [csvLineMulti]

theorem csvLineMulti_fields (q : Quote DateTime) (i : Nat) (hsym : ',' ∉ q.symbol) :
    goSplit ',' (csvLineMulti q i) =
      [q.symbol, fmtDateMin (q.date.getD i zeroDT), fmtDec 2 (q.«open».getD i 0),
       fmtDec 2 (q.high.getD i 0), fmtDec 2 (q.low.getD i 0), fmtDec 2 (q.close.getD i 0),
       fmtDec 0 (q.volume.getD i 0)] := by
  rw [csvLineMulti_shape, goSplit_append _ hsym, goSplit_append _ (fmtDateMin_not_comma _),
    goSplit_append _ fmtDec_not_comma, goSplit_append _ fmtDec_not_comma,
    goSplit_append _ fmtDec_not_comma, goSplit_append _ fmtDec_not_comma,
    goSplit_not_mem fmtDec_not_comma]

theorem csvLineMulti_not_nl (q : Quote DateTime) (i : Nat) (hsym : '\n' ∉ q.symbol) :
    '\n' ∉ csvLineMulti q i := by
  rw [csvLineMulti_shape]
  intro hc
  rcases List.mem_append.mp hc with h | h
  · exact hsym h
  rcases List.mem_cons.mp h with h | h
  · exact absurd h (by decide)
  rcases List.mem_append.mp h with h | h
  · exact fmtDateMin_not_nl _ h
  rcases List.mem_cons.mp h with h | h
  · exact absurd h (by decide)
  rcases List.mem_append.mp h with h | h
  · exact fmtDec_not_nl h
  rcases List.mem_cons.mp h with h | h
  · exact absurd h (by decide)
  rcases List.mem_append.mp h with h | h
  · exact fmtDec_not_nl h
  rcases List.mem_cons.mp h with h | h
  · exact absurd h (by decide)
  rcases List.mem_append.mp h with h | h
  · exact fmtDec_not_nl h
  rcases List.mem_cons.mp h with h | h
  · exact absurd h (by decide)
  rcases List.mem_append.mp h with h | h
  · exact fmtDec_not_nl h
  rcases List.mem_cons.mp h with h | h
  · exact absurd h (by decide)
  exact fmtDec_not_nl h

theorem goSplit_multi_body (qs : List (Quote DateTime)) (hsym : ∀ q ∈ qs, '\n' ∉ q.symbol) :
    goSplit '\n' ((qs.map (fun q =>
        ((List.range q.close.length).map (fun i => csvLineMulti q i ++ ['\n'])).flatten)).flatten) =
      (qs.map (fun q => (List.range q.close.length).map (csvLineMulti q))).flatten ++ [[]] := by
  induction qs with
  | nil => rfl
  | cons q rest ih =>
    simp only [List.map_cons, List.flatten_cons]
    have hmap : (List.range q.close.length).map (fun i => csvLineMulti q i ++ ['\n']) =
        ((List.range q.close.length).map (csvLineMulti q)).map (fun l => l ++ ['\n']) := by
      rw [List.map_map]; rfl
    have hlines : ∀ l ∈ (List.range q.close.length).map (csvLineMulti q), '\n' ∉ l := by
      intro l hl
      obtain ⟨i, _, rfl⟩ := List.mem_map.mp hl
      exact csvLineMulti_not_nl q i (hsym q (List.mem_cons_self q rest))
    rw [hmap, goSplit_flatten_append _ _ hlines,
      ih (fun x hx => hsym x (List.mem_cons_of_mem q hx)), List.append_assoc]

theorem goSplit_quotesCSV (qs : List (Quote DateTime))
    (hsym : ∀ q ∈ qs, '\n' ∉ q.symbol) :
    goSplit '\n' (Quotes.CSV qs) =
      csvHeaderMulti ::
        ((qs.map (fun q => (List.range q.close.length).map (csvLineMulti q))).flatten ++ [[]]) := by
  unfold Quotes.CSV
  have hh : '\n' ∉ csvHeaderMulti := by decide
  rw [goSplit_append _ hh, goSplit_multi_body qs hsym]

theorem dateFieldsOK_getD {l : List DateTime} (h : ∀ d ∈ l, dateFieldsOK d) (i : Nat) :
    dateFieldsOK (l.getD i zeroDT) := by
  by_cases hi : i < l.length
  · rw [List.getD_eq_getElem l zeroDT hi]
    exact h _ (List.getElem_mem hi)
  · rw [List.getD_eq_default l zeroDT (by omega)]
    decide

/-- C9: every bar line of the delimited encoders carries a date field that
parses under the "YYYY-MM-DD HH:MM" layout, price fields with exactly two
digits after the point and, in the multi-symbol encoder, a volume field with
no decimal point (0 decimals); the single-quote encoder Quote.CSV is the one
path whose volume field carries exactly six digits after the point. -/
theorem c9_delimited_formats (qs : List (Quote DateTime)) (q1 : Quote DateTime)
    (hsym : ∀ q ∈ qs, ',' ∉ q.symbol ∧ '\n' ∉ q.symbol)
    (hdm : ∀ q ∈ qs, ∀ d ∈ q.date, dateFieldsOK d)
    (hd1 : ∀ d ∈ q1.date, dateFieldsOK d) :
    (∀ line ∈ ((goSplit '\n' (Quotes.CSV qs)).drop 1).dropLast,
      (goSplit ',' line).length = 7 ∧
      (parseDateMin ((goSplit ',' line).getD 1 [])).isSome = true ∧
      decCount ((goSplit ',' line).getD 2 []) = some 2 ∧
      decCount ((goSplit ',' line).getD 3 []) = some 2 ∧
      decCount ((goSplit ',' line).getD 4 []) = some 2 ∧
      decCount ((goSplit ',' line).getD 5 []) = some 2 ∧
      decCount ((goSplit ',' line).getD 6 []) = none) ∧
    (∀ line ∈ ((goSplit '\n' (Quote.CSV q1)).drop 1).dropLast,
      (goSplit ',' line).length = 6 ∧
      (parseDateMin ((goSplit ',' line).getD 0 [])).isSome = true ∧
      decCount ((goSplit ',' line).getD 1 []) = some 2 ∧
      decCount ((goSplit ',' line).getD 2 []) = some 2 ∧
      decCount ((goSplit ',' line).getD 3 []) = some 2 ∧
      decCount ((goSplit ',' line).getD 4 []) = some 2 ∧
      decCount ((goSplit ',' line).getD 5 []) = some 6) := by
  constructor
  · intro line hline
    rw [goSplit_quotesCSV qs (fun q hq => (hsym q hq).2)] at hline
    set Lall := (qs.map (fun q => (List.range q.close.length).map (csvLineMulti q))).flatten
      with hLall
    have hdl : ((csvHeaderMulti :: (Lall ++ [[]])).drop 1).dropLast = Lall := by
      show (Lall ++ [[]]).dropLast = Lall
      rw [List.dropLast_concat]
    rw [hdl] at hline
    obtain ⟨block, hblock, hmem⟩ := List.mem_flatten.mp hline
    obtain ⟨q, hq, rfl⟩ := List.mem_map.mp hblock
    obtain ⟨i, _, rfl⟩ := List.mem_map.mp hmem
    rw [csvLineMulti_fields q i (hsym q hq).1]
    refine ⟨rfl, ?_, ?_, ?_, ?_, ?_, ?_⟩
    · show (parseDateMin (fmtDateMin (q.date.getD i zeroDT))).isSome = true
      rw [parseDateMin_fmtDateMin (dateFieldsOK_getD (hdm q hq) i)]
      rfl
    · exact decCount_fmtDec_pos (by norm_num) _
    · exact decCount_fmtDec_pos (by norm_num) _
    · exact decCount_fmtDec_pos (by norm_num) _
    · exact decCount_fmtDec_pos (by norm_num) _
    · exact decCount_fmtDec_zero _
  · intro line hline
    rw [goSplit_quoteCSV q1] at hline
    set L1 := (List.range q1.close.length).map (csvLine q1) with hL1
    have hdl : ((csvHeader :: (L1 ++ [[]])).drop 1).dropLast = L1 := by
      show (L1 ++ [[]]).dropLast = L1
      rw [List.dropLast_concat]
    rw [hdl] at hline
    obtain ⟨i, _, rfl⟩ := List.mem_map.mp hline
    rw [csvLine_fields q1 i]
    refine ⟨rfl, ?_, ?_, ?_, ?_, ?_, ?_⟩
    · show (parseDateMin (fmtDateMin (q1.date.getD i zeroDT))).isSome = true
      rw [parseDateMin_fmtDateMin (dateFieldsOK_getD hd1 i)]
      rfl
    · exact decCount_fmtDec_pos (by norm_num) _
    · exact decCount_fmtDec_pos (by norm_num) _
    · exact decCount_fmtDec_pos (by norm_num) _
    · exact decCount_fmtDec_pos (by norm_num) _
    · exact decCount_fmtDec_pos (by norm_num) _

/-- Witness: the C9 format theorem applied to the concrete one-bar quote,
both as the single series of the multi-symbol encoder and alone. -/
theorem c9_delimited_formats_witness :
    (∀ q ∈ [qWit], ',' ∉ q.symbol ∧ '\n' ∉ q.symbol) ∧
    (∀ q ∈ [qWit], ∀ d ∈ q.date, dateFieldsOK d) ∧
    (∀ d ∈ qWit.date, dateFieldsOK d) ∧
    (∀ line ∈ ((goSplit '\n' (Quotes.CSV [qWit])).drop 1).dropLast,
      (goSplit ',' line).length = 7 ∧
      (parseDateMin ((goSplit ',' line).getD 1 [])).isSome = true ∧
      decCount ((goSplit ',' line).getD 2 []) = some 2 ∧
      decCount ((goSplit ',' line).getD 3 []) = some 2 ∧
      decCount ((goSplit ',' line).getD 4 []) = some 2 ∧
      decCount ((goSplit ',' line).getD 5 []) = some 2 ∧
      decCount ((goSplit ',' line).getD 6 []) = none) := by
  have h1 : ∀ q ∈ [qWit], ',' ∉ q.symbol ∧ '\n' ∉ q.symbol := by decide
  have h2 : ∀ q ∈ [qWit], ∀ d ∈ q.date, dateFieldsOK d := by decide
  have h3 : ∀ d ∈ qWit.date, dateFieldsOK d := by decide
  exact ⟨h1, h2, h3, (c9_delimited_formats [qWit] qWit h1 h2 h3).1⟩

/-! Index extraction through mapped record fields. -/

theorem getD_map0 {α : Type} (l : List α) (f : α → Rat) (dflt : α) (i : Nat)
    (hi : i < l.length) :
    (l.map f).getD i 0 = f (l.getD i dflt) := by
  rw [List.getD_eq_getElem (l.map f) 0 (by simpa using hi), List.getElem_map,
    List.getD_eq_getElem l dflt hi]

/-- C3: for every parsed 7-column data row of the portal (Yahoo) adapter with
raw open o, high h, low l, close c, adjusted close a, the output bar is
(o, h, l, a) when adjustQuote is true and (o*(c/a), h*(c/a), l*(c/a), c) when
adjustQuote is false. -/
theorem c3_adjustment_asymmetry (symbol : Str) (csvdata : List (List Str)) (i : Nat)
    (hi : i < (csvdata.drop 1).length) :
    ((yahooParse symbol true csvdata).«open».getD i 0 =
        parseFloatD (((csvdata.drop 1).getD i []).getD 1 []) ∧
      (yahooParse symbol true csvdata).high.getD i 0 =
        parseFloatD (((csvdata.drop 1).getD i []).getD 2 []) ∧
      (yahooParse symbol true csvdata).low.getD i 0 =
        parseFloatD (((csvdata.drop 1).getD i []).getD 3 []) ∧
      (yahooParse symbol true csvdata).close.getD i 0 =
        parseFloatD (((csvdata.drop 1).getD i []).getD 5 [])) ∧
    ((yahooParse symbol false csvdata).«open».getD i 0 =
        parseFloatD (((csvdata.drop 1).getD i []).getD 1 []) *
          (parseFloatD (((csvdata.drop 1).getD i []).getD 4 []) /
            parseFloatD (((csvdata.drop 1).getD i []).getD 5 [])) ∧
      (yahooParse symbol false csvdata).high.getD i 0 =
        parseFloatD (((csvdata.drop 1).getD i []).getD 2 []) *
          (parseFloatD (((csvdata.drop 1).getD i []).getD 4 []) /
            parseFloatD (((csvdata.drop 1).getD i []).getD 5 [])) ∧
      (yahooParse symbol false csvdata).low.getD i 0 =
        parseFloatD (((csvdata.drop 1).getD i []).getD 3 []) *
          (parseFloatD (((csvdata.drop 1).getD i []).getD 4 []) /
            parseFloatD (((csvdata.drop 1).getD i []).getD 5 [])) ∧
      (yahooParse symbol false csvdata).close.getD i 0 =
        parseFloatD (((csvdata.drop 1).getD i []).getD 4 [])) := by
  refine ⟨⟨?_, ?_, ?_, ?_⟩, ⟨?_, ?_, ?_, ?_⟩⟩ <;>
    (unfold yahooParse; dsimp only; rw [getD_map0 (csvdata.drop 1) _ [] i hi]; simp)

/-- Witness: the C3 asymmetry theorem applied to a concrete header-plus-one-row
payload with raw close 16 and adjusted close 8. -/
theorem c3_adjustment_asymmetry_witness :
    (0 : Nat) < (yahooRowsWit.drop 1).length ∧
    (yahooParse "spy".data true yahooRowsWit).close.getD 0 0 =
      parseFloatD (((yahooRowsWit.drop 1).getD 0 []).getD 5 []) ∧
    (yahooParse "spy".data false yahooRowsWit).«open».getD 0 0 =
      parseFloatD (((yahooRowsWit.drop 1).getD 0 []).getD 1 []) *
        (parseFloatD (((yahooRowsWit.drop 1).getD 0 []).getD 4 []) /
          parseFloatD (((yahooRowsWit.drop 1).getD 0 []).getD 5 [])) := by
  have hi : (0 : Nat) < (yahooRowsWit.drop 1).length := by decide
  have h := c3_adjustment_asymmetry "spy".data yahooRowsWit 0 hi
  exact ⟨hi, h.1.2.2.2, h.2.1⟩

/-- C5 (amended): googleDaily writes its output with the positional reversal
row i ↦ index n-1-i, so a strictly descending upstream feed yields strictly
ascending output; NewQuoteFromYahoo's parse stage writes data row i to output
index i with no reversal, so its output dates follow the payload order. -/
theorem c5_ordering_amended (symbol : Str) (adjustQuote : Bool)
    (csvdata : List (List Str)) :
    (googleDailyParse symbol csvdata).date =
      (csvdata.map (fun r => (parseDateGoogle (r.getD 0 [])).getD zeroDT)).reverse ∧
    (yahooParse symbol adjustQuote csvdata).date =
      (csvdata.drop 1).map (fun r => (parseDateDay (r.getD 0 [])).getD zeroDT) ∧
    (List.Pairwise (fun a b => dtLt b a)
        (csvdata.map (fun r => (parseDateGoogle (r.getD 0 [])).getD zeroDT)) →
      List.Pairwise dtLt (googleDailyParse symbol csvdata).date) := by
  have hrev : (googleDailyParse symbol csvdata).date =
      (csvdata.map (fun r => (parseDateGoogle (r.getD 0 [])).getD zeroDT)).reverse := by
    show (List.range csvdata.length).map _ = _
    exact map_range_rev csvdata [] (fun r => (parseDateGoogle (r.getD 0 [])).getD zeroDT)
  refine ⟨hrev, rfl, ?_⟩
  intro hdesc
  rw [hrev, List.pairwise_reverse]
  exact hdesc

/-- Witness: the amended C5 theorem applied to a concrete descending two-row
Google payload, whose parsed output is strictly ascending. -/
theorem c5_ordering_amended_witness :
    List.Pairwise (fun a b => dtLt b a)
      (googleRowsWit.map (fun r => (parseDateGoogle (r.getD 0 [])).getD zeroDT)) ∧
    List.Pairwise dtLt (googleDailyParse "spy".data googleRowsWit).date := by
  have hdesc : List.Pairwise (fun a b => dtLt b a)
      (googleRowsWit.map (fun r => (parseDateGoogle (r.getD 0 [])).getD zeroDT)) := by decide
  exact ⟨hdesc, (c5_ordering_amended "spy".data true googleRowsWit).2.2 hdesc⟩

/-- Counterexample to C5 as stated: on a descending two-row payload the portal
adapter keeps payload order (output index 0 holds row 0's later date, not the
reversal the claim asserts), so the output is not ascending. -/
theorem c5_counterexample :
    (NewQuoteFromYahoo yahooNetDescWit "spy".data [] [] dailyP true).1.date =
      [⟨2020, 1, 3, 0, 0, 0⟩, ⟨2020, 1, 2, 0, 0, 0⟩] ∧
    ¬ List.Pairwise dtLt
      (NewQuoteFromYahoo yahooNetDescWit "spy".data [] [] dailyP true).1.date := by
  decide

/-! The orchestrator's fold is an order-preserving filter (for C6). -/

theorem yahooFold_filterMap (F : Str → Quote DateTime × Option Str × Nat) :
    ∀ (l : List Str) (acc : List (Quote DateTime)),
      l.foldl (fun quotes s =>
          match F s with
          | (q, none, _) => quotes ++ [q]
          | (_, some _, _) => quotes) acc
        = acc ++ l.filterMap (fun s =>
            match F s with
            | (q, none, _) => some q
            | (_, some _, _) => none) := by
  intro l
  induction l with
  | nil => intro acc; simp
  | cons a t ih =>
    intro acc
    simp only [List.foldl_cons, List.filterMap_cons]
    rcases hFa : F a with ⟨q, e, k⟩
    cases e with
    | none =>
      dsimp only
      rw [ih (acc ++ [q])]
      simp
    | some msg =>
      dsimp only
      rw [ih acc]

/-- C6: the batch fetcher returns exactly the successfully fetched series, in
original request order (an order-preserving filter of the symbol list), with
failed symbols absent, and the batch call itself carries no error. -/
theorem c6_partial_failure_batch (net : Str → YahooNet) (symbols : List Str)
    (startDate endDate period : Str) (adjustQuote : Bool) :
    NewQuotesFromYahooSyms net symbols startDate endDate period adjustQuote =
      (symbols.filterMap (fun s =>
          match NewQuoteFromYahoo (net s) s startDate endDate period adjustQuote with
          | (q, none, _) => some q
          | (_, some _, _) => none),
       none) := by
  unfold NewQuotesFromYahooSyms
  have h := yahooFold_filterMap
    (fun s => NewQuoteFromYahoo (net s) s startDate endDate period adjustQuote) symbols []
  simp only [List.nil_append] at h
  exact congrArg (fun x => (x, (none : Option Str))) h

/-- C7: a non-daily period is rejected by NewQuoteFromYahoo with an empty
quote and the fixed error before any HTTP request is issued (request count 0);
with the daily period the guard is not taken and the session requests are
issued (request count at least 2). -/
theorem c7_period_guard (net : YahooNet) (symbol startDate endDate period : Str)
    (adjustQuote : Bool) :
    (period ≠ dailyP →
      NewQuoteFromYahoo net symbol startDate endDate period adjustQuote =
        (NewQuote [] 0, some "Yahoo intraday data no longer supported".data, 0)) ∧
    (period = dailyP →
      2 ≤ (NewQuoteFromYahoo net symbol startDate endDate period adjustQuote).2.2) := by
  constructor
  · intro h
    simp [NewQuoteFromYahoo, h]
  · intro h
    subst h
    unfold NewQuoteFromYahoo
    rw [if_neg (by simp)]
    cases net.crumbResp with
    | error e => simp
    | ok cr =>
      cases net.histResp with
      | error e => simp
      | ok rows => simp

/-- Witness: the C7 guard theorem at a concrete network and both a weekly and
the daily period. -/
theorem c7_period_guard_witness :
    (NewQuoteFromYahoo ⟨.ok [], .ok []⟩ "spy".data [] [] weeklyP true =
      (NewQuote [] 0, some "Yahoo intraday data no longer supported".data, 0)) ∧
    2 ≤ (NewQuoteFromYahoo ⟨.ok [], .ok []⟩ "spy".data [] [] dailyP true).2.2 :=
  ⟨(c7_period_guard ⟨.ok [], .ok []⟩ "spy".data [] [] weeklyP true).1 (by decide),
   (c7_period_guard ⟨.ok [], .ok []⟩ "spy".data [] [] dailyP true).2 rfl⟩

/-- C2 evaluated at its failing input: with the legal Go map iteration order
[aapl, spy] over spy-then-aapl text, the first returned series is labelled
aapl yet holds the spy row's close 10.50 followed by only the first aapl
row's 87.00, and the spy-labelled series holds a single (aapl) row — not the
first-seen order [spy, aapl] with per-symbol rows that the claim states. -/
theorem c2_map_order_failure :
    (NewQuotesFromCSV ["aapl".data, "spy".data] csvMultiWit).length = 2 ∧
    ((NewQuotesFromCSV ["aapl".data, "spy".data] csvMultiWit).getD 0
        (NewQuote [] 0)).symbol = "aapl".data ∧
    ((NewQuotesFromCSV ["aapl".data, "spy".data] csvMultiWit).getD 0
        (NewQuote [] 0)).close.getD 0 0 = 10.50 ∧
    ((NewQuotesFromCSV ["aapl".data, "spy".data] csvMultiWit).getD 0
        (NewQuote [] 0)).close.getD 1 0 = 87.00 ∧
    ((NewQuotesFromCSV ["aapl".data, "spy".data] csvMultiWit).getD 1
        (NewQuote [] 0)).symbol = "spy".data ∧
    ((NewQuotesFromCSV ["aapl".data, "spy".data] csvMultiWit).getD 1
        (NewQuote [] 0)).close.length = 1 := by
  refine ⟨?_, ?_, ?_, ?_, ?_, ?_⟩ <;> with_unfolding_all decide

/-! PASV reply parsing (for C8). -/

theorem strIndex_append_cons {c : Char} {a : Str} (b : Str) (h : c ∉ a) :
    strIndex c (a ++ c :: b) = some a.length := by
  induction a with
  | nil => simp [strIndex]
  | cons x rest ih =>
    have hx : ¬ x = c := fun e => h (e ▸ List.mem_cons_self x rest)
    have hrest : c ∉ rest := fun m => h (List.mem_cons_of_mem x m)
    simp [strIndex, hx, ih hrest]

theorem pasv_inner_chars {n1 n2 n3 n4 n5 n6 : Nat} {c : Char}
    (hc : c ∈ natDigits n1 ++ ',' :: (natDigits n2 ++ ',' :: (natDigits n3 ++ ',' ::
      (natDigits n4 ++ ',' :: (natDigits n5 ++ ',' :: natDigits n6))))) :
    c.isDigit = true ∨ c = ',' := by
  rcases List.mem_append.mp hc with h | h
  · exact Or.inl (natDigits_all_isDigit _ _ h)
  rcases List.mem_cons.mp h with h | h
  · exact Or.inr h
  rcases List.mem_append.mp h with h | h
  · exact Or.inl (natDigits_all_isDigit _ _ h)
  rcases List.mem_cons.mp h with h | h
  · exact Or.inr h
  rcases List.mem_append.mp h with h | h
  · exact Or.inl (natDigits_all_isDigit _ _ h)
  rcases List.mem_cons.mp h with h | h
  · exact Or.inr h
  rcases List.mem_append.mp h with h | h
  · exact Or.inl (natDigits_all_isDigit _ _ h)
  rcases List.mem_cons.mp h with h | h
  · exact Or.inr h
  rcases List.mem_append.mp h with h | h
  · exact Or.inl (natDigits_all_isDigit _ _ h)
  rcases List.mem_cons.mp h with h | h
  · exact Or.inr h
  exact Or.inl (natDigits_all_isDigit _ _ h)

/-- C8: on any control reply whose first parenthesized region is the list
(h1,h2,h3,h4,p1,p2), getAnonFTP's port extraction computes p1*256 + p2 from
the last two comma-separated fields inside the parentheses. -/
theorem c8_pasv_port (pre post : Str) (n1 n2 n3 n4 p1 p2 : Nat)
    (hpre1 : '(' ∉ pre) (hpre2 : ')' ∉ pre) :
    pasvPort (pre ++ '(' :: ((natDigits n1 ++ ',' :: (natDigits n2 ++ ',' :: (natDigits n3 ++
      ',' :: (natDigits n4 ++ ',' :: (natDigits p1 ++ ',' :: natDigits p2))))) ++
        ')' :: post)) = (p1 : Int) * 256 + (p2 : Int) := by
  set inner := natDigits n1 ++ ',' :: (natDigits n2 ++ ',' :: (natDigits n3 ++
    ',' :: (natDigits n4 ++ ',' :: (natDigits p1 ++ ',' :: natDigits p2)))) with hinner
  have hinnerP : ')' ∉ inner := by
    intro hm
    rcases pasv_inner_chars (hinner ▸ hm) with h | h
    · exact absurd h (by decide)
    · exact absurd h (by decide)
  have hidx1 : strIndex '(' (pre ++ '(' :: (inner ++ ')' :: post)) = some pre.length :=
    strIndex_append_cons _ hpre1
  have hidx2 : strIndex ')' (pre ++ '(' :: (inner ++ ')' :: post)) =
      some (pre.length + (1 + inner.length)) := by
    have hre : pre ++ '(' :: (inner ++ ')' :: post) = (pre ++ '(' :: inner) ++ ')' :: post := by
      simp
    have hnm : ')' ∉ pre ++ '(' :: inner := by
      intro hm
      rcases List.mem_append.mp hm with h | h
      · exact hpre2 h
      rcases List.mem_cons.mp h with h | h
      · exact absurd h (by decide)
      · exact hinnerP h
    rw [hre, strIndex_append_cons _ hnm]
    congr 1
    simp
    omega
  have hdrop : (pre ++ '(' :: (inner ++ ')' :: post)).drop pre.length =
      '(' :: (inner ++ ')' :: post) :=
    List.drop_left' rfl
  have htake : ('(' :: (inner ++ ')' :: post)).take (pre.length + (1 + inner.length) - pre.length)
      = '(' :: inner := by
    have h1 : pre.length + (1 + inner.length) - pre.length = inner.length + 1 := by omega
    rw [h1, List.take_succ_cons]
    congr 1
    exact List.take_left' rfl
  have hdig : ∀ m : Nat, ',' ∉ natDigits m := fun m hm =>
    absurd (natDigits_all_isDigit m ',' hm) (by decide)
  have h0 : ',' ∉ '(' :: natDigits n1 := by
    intro hm
    rcases List.mem_cons.mp hm with h | h
    · exact absurd h (by decide)
    · exact hdig n1 h
  have hsplit : goSplit ',' ('(' :: inner) =
      ['(' :: natDigits n1, natDigits n2, natDigits n3, natDigits n4,
        natDigits p1, natDigits p2] := by
    rw [hinner]
    rw [show '(' :: (natDigits n1 ++ ',' :: (natDigits n2 ++ ',' :: (natDigits n3 ++ ',' ::
        (natDigits n4 ++ ',' :: (natDigits p1 ++ ',' :: natDigits p2))))) =
      ('(' :: natDigits n1) ++ ',' :: (natDigits n2 ++ ',' :: (natDigits n3 ++ ',' ::
        (natDigits n4 ++ ',' :: (natDigits p1 ++ ',' :: natDigits p2)))) from rfl]
    rw [goSplit_append _ h0, goSplit_append _ (hdig n2), goSplit_append _ (hdig n3),
      goSplit_append _ (hdig n4), goSplit_append _ (hdig p1), goSplit_not_mem (hdig p2)]
  have hred : pasvPort (pre ++ '(' :: (inner ++ ')' :: post)) =
      (let s := goSplit ',' (List.take (pre.length + (1 + inner.length) - pre.length)
        (List.drop pre.length (pre ++ '(' :: (inner ++ ')' :: post))))
       let l1 := atoiD (s.getD (s.length - 2) [])
       let l2 := atoiD (s.getD (s.length - 1) [])
       l1 * 256 + l2) := by
    unfold pasvPort
    rw [hidx1, hidx2]
  rw [hred, hdrop, htake, hsplit]
  show atoiD (natDigits p1) * 256 + atoiD (natDigits p2) = (p1 : Int) * 256 + (p2 : Int)
  rw [atoiD_natDigits p1, atoiD_natDigits p2]

/-- Witness: the PASV port theorem applied to a concrete control reply. -/
theorem c8_pasv_port_witness :
    pasvPort ("227 Entering Passive Mode ".data ++ '(' ::
      ((natDigits 192 ++ ',' :: (natDigits 168 ++ ',' :: (natDigits 1 ++ ',' ::
        (natDigits 2 ++ ',' :: (natDigits 10 ++ ',' :: natDigits 5))))) ++
          ')' :: ".".data)) = (10 : Int) * 256 + (5 : Int) :=
  c8_pasv_port "227 Entering Passive Mode ".data ".".data 192 168 1 2 10 5
    (by decide) (by decide)

/-! Gdax pagination (for C4). -/

theorem gdaxGranularity_pos (period : Str) : 0 < gdaxGranularity period := by
  unfold gdaxGranularity
  split_ifs <;> norm_num

theorem gdaxWindowDates_eq (bars : List GdaxBar) :
    gdaxWindowDates bars = (bars.map GdaxBar.t).reverse :=
  map_range_rev bars default GdaxBar.t

theorem gdaxLoopF_stop (fetch : Int → Int → List GdaxBar) (g : Nat) (endT : Int)
    (fuel : Nat) (s e : Int) (h : ¬ s < endT) :
    gdaxLoopF fetch g endT fuel s e = ([], [], []) := by
  cases fuel with
  | zero => rfl
  | succ f => simp [gdaxLoopF, h]

theorem gdaxLoopF_dates (fetch : Int → Int → List GdaxBar) (g : Nat) (endT : Int) :
    ∀ (fuel : Nat) (s e : Int),
      (gdaxLoopF fetch g endT fuel s e).2.1 =
        ((gdaxLoopF fetch g endT fuel s e).1.map
          (fun w => ((fetch w.1 w.2).map GdaxBar.t).reverse)).flatten := by
  intro fuel
  induction fuel with
  | zero => intro s e; rfl
  | succ fuel ih =>
    intro s e
    by_cases h : s < endT
    · simp only [gdaxLoopF, if_pos h]
      rw [ih, gdaxWindowDates_eq]
      simp only [List.map_cons, List.flatten_cons]
    · simp only [gdaxLoopF, if_neg h]
      rfl

/-! Ceiling-division arithmetic over the integers. -/

theorem ceilDiv_nonpos {d c : Int} (hc : 0 < c) (hd : d ≤ 0) :
    ((d + (c - 1)) / c).toNat = 0 := by
  apply Int.toNat_of_nonpos
  calc (d + (c - 1)) / c ≤ (c - 1) / c := Int.ediv_le_ediv hc (by omega)
  _ = 0 := Int.ediv_eq_zero_of_lt (by omega) (by omega)

theorem ceilDiv_one {d c : Int} (hc : 0 < c) (h1 : 0 < d) (h2 : d ≤ c) :
    ((d + (c - 1)) / c).toNat = 1 := by
  have he : d + (c - 1) = (d - 1) + 1 * c := by ring
  rw [he, Int.add_mul_ediv_right _ _ (by omega),
    Int.ediv_eq_zero_of_lt (by omega) (by omega)]
  rfl

theorem ceilDiv_step {d c : Int} (hc : 0 < c) (h1 : 0 < d) :
    ((d + (c - 1)) / c).toNat = ((d - c + (c - 1)) / c).toNat + 1 := by
  have he : d + (c - 1) = (d - c + (c - 1)) + 1 * c := by ring
  rw [he, Int.add_mul_ediv_right _ _ (by omega)]
  have hnn : 0 ≤ (d - c + (c - 1)) / c := Int.ediv_nonneg (by omega) (by omega)
  omega

theorem gdaxLoopF_len (fetch : Int → Int → List GdaxBar) (g : Nat) (endT : Int)
    (hg : 0 < g) :
    ∀ (fuel : Nat) (s : Int), endT - s ≤ (fuel : Int) * (201 * (g : Int)) →
      (gdaxLoopF fetch g endT fuel s (s + 200 * (g : Int))).1.length =
        ((endT - s + (201 * (g : Int) - 1)) / (201 * (g : Int))).toNat := by
  have hc : (0 : Int) < 201 * (g : Int) := by positivity
  intro fuel
  induction fuel with
  | zero =>
    intro s hle
    simp only [Nat.cast_zero, zero_mul] at hle
    simp only [gdaxLoopF, List.length_nil]
    exact (ceilDiv_nonpos hc (by omega)).symm
  | succ fuel ih =>
    intro s hle
    by_cases h : s < endT
    · simp only [gdaxLoopF, if_pos h]
      rw [List.length_cons]
      have hle2 : endT - (s + 200 * (g : Int) + (g : Int)) ≤ (fuel : Int) * (201 * (g : Int)) := by
        have hstep : ((fuel : Int) + 1) * (201 * (g : Int)) =
            (fuel : Int) * (201 * (g : Int)) + 201 * (g : Int) := by ring
        push_cast at hle
        omega
      have hrec := ih (s + 200 * (g : Int) + (g : Int)) hle2
      rw [hrec]
      have hstep2 := ceilDiv_step (d := endT - s) hc (by omega)
      have harg : endT - (s + 200 * (g : Int) + (g : Int)) = endT - s - 201 * (g : Int) := by
        ring
      rw [harg]
      omega
    · simp only [gdaxLoopF, if_neg h, List.length_nil]
      exact (ceilDiv_nonpos hc (by omega)).symm

theorem gdaxLoopF_windows (fetch : Int → Int → List GdaxBar) (g : Nat) (endT : Int) :
    ∀ (fuel : Nat) (s : Int) (i : Nat),
      i < (gdaxLoopF fetch g endT fuel s (s + 200 * (g : Int))).1.length →
      ((gdaxLoopF fetch g endT fuel s (s + 200 * (g : Int))).1.getD i (0, 0)).1 =
          s + (i : Int) * (201 * (g : Int)) ∧
        ((gdaxLoopF fetch g endT fuel s (s + 200 * (g : Int))).1.getD i (0, 0)).2 =
          s + (i : Int) * (201 * (g : Int)) + 200 * (g : Int) := by
  intro fuel
  induction fuel with
  | zero =>
    intro s i hi
    simp [gdaxLoopF] at hi
  | succ fuel ih =>
    intro s i hi
    by_cases h : s < endT
    · simp only [gdaxLoopF, if_pos h] at hi ⊢
      cases i with
      | zero => constructor <;> simp
      | succ i =>
        rw [List.getD_cons_succ]
        rw [List.length_cons] at hi
        have hrec := ih (s + 200 * (g : Int) + (g : Int)) i (by omega)
        obtain ⟨ha, hb⟩ := hrec
        constructor
        · rw [ha]; push_cast; ring
        · rw [hb]; push_cast; ring
    · simp only [gdaxLoopF, if_neg h] at hi
      simp at hi

theorem gdaxLoopF_pairwise (fetch : Int → Int → List GdaxBar) (g : Nat) (endT : Int)
    (hg : 0 < g) :
    ∀ (fuel : Nat) (s e : Int), s ≤ e →
      (∀ w ∈ (gdaxLoopF fetch g endT fuel s e).1,
        List.Pairwise (fun a b => b < a) ((fetch w.1 w.2).map GdaxBar.t) ∧
        ∀ b ∈ fetch w.1 w.2, w.1 ≤ b.t ∧ b.t ≤ w.2) →
      List.Pairwise (· < ·) (gdaxLoopF fetch g endT fuel s e).2.1 ∧
      ∀ t ∈ (gdaxLoopF fetch g endT fuel s e).2.1, s ≤ t := by
  have hgz : (0 : Int) < (g : Int) := by exact_mod_cast hg
  intro fuel
  induction fuel with
  | zero =>
    intro s e _ _
    exact ⟨List.Pairwise.nil, by simp [gdaxLoopF]⟩
  | succ fuel ih =>
    intro s e hse hresp
    by_cases h : s < endT
    · simp only [gdaxLoopF, if_pos h] at hresp ⊢
      rw [gdaxWindowDates_eq]
      have hw0 := hresp (s, e) (List.mem_cons_self _ _)
      have hrest : ∀ w ∈ (gdaxLoopF fetch g endT fuel (e + (g : Int))
          (e + (g : Int) + 200 * (g : Int))).1,
          List.Pairwise (fun a b => b < a) ((fetch w.1 w.2).map GdaxBar.t) ∧
          ∀ b ∈ fetch w.1 w.2, w.1 ≤ b.t ∧ b.t ≤ w.2 :=
        fun w hw => hresp w (List.mem_cons_of_mem _ hw)
      have hih := ih (e + (g : Int)) (e + (g : Int) + 200 * (g : Int)) (by omega) hrest
      constructor
      · rw [List.pairwise_append]
        refine ⟨?_, hih.1, ?_⟩
        · rw [List.pairwise_reverse]
          exact hw0.1
        · intro a ha b hb
          have ha2 : a ∈ (fetch s e).map GdaxBar.t := by simpa using ha
          obtain ⟨bar, hbar, rfl⟩ := List.mem_map.mp ha2
          have hae : bar.t ≤ e := (hw0.2 bar hbar).2
          have hbe : e + (g : Int) ≤ b := hih.2 b hb
          omega
      · intro t ht
        rcases List.mem_append.mp ht with h1 | h2
        · have h1b : t ∈ (fetch s e).map GdaxBar.t := by simpa using h1
          obtain ⟨bar, hbar, rfl⟩ := List.mem_map.mp h1b
          exact (hw0.2 bar hbar).1
        · have := hih.2 t h2
          omega
    · simp only [gdaxLoopF, if_neg h]
      exact ⟨List.Pairwise.nil, by simp⟩

theorem gdax_requests_len (fetch : Int → Int → List GdaxBar) (start endT : Int)
    (period : Str) :
    (NewQuoteFromGdax fetch start endT period).1.length =
      ((endT - start + (201 * (gdaxGranularity period : Int) - 1)) /
        (201 * (gdaxGranularity period : Int))).toNat := by
  have hg := gdaxGranularity_pos period
  have hgz : (0 : Int) < (gdaxGranularity period : Int) := by exact_mod_cast hg
  have hc : (0 : Int) < 201 * (gdaxGranularity period : Int) := by positivity
  simp only [NewQuoteFromGdax]
  by_cases hlt : start < endT
  · by_cases hcl : start + 200 * (gdaxGranularity period : Int) ≤ endT
    · rw [min_eq_left hcl]
      have hfuel : endT - start ≤
          (((endT - start).toNat / (201 * gdaxGranularity period) + 1 : Nat) : Int) *
            (201 * (gdaxGranularity period : Int)) := by
        set g := gdaxGranularity period with hgdef
        set d := (endT - start).toNat with hd
        have hdm := Nat.div_add_mod d (201 * g)
        have hmlt : d % (201 * g) < 201 * g := Nat.mod_lt d (by positivity)
        have hdiv : d ≤ (d / (201 * g) + 1) * (201 * g) := by
          have hexp : (d / (201 * g) + 1) * (201 * g) =
              201 * g * (d / (201 * g)) + 201 * g := by ring
          omega
        have hcast : ((d : Int)) = endT - start := by omega
        calc endT - start = (d : Int) := hcast.symm
        _ ≤ (((d / (201 * g) + 1) * (201 * g) : Nat) : Int) := by exact_mod_cast hdiv
        _ = ((d / (201 * g) + 1 : Nat) : Int) * (201 * (g : Int)) := by push_cast; ring
      exact gdaxLoopF_len fetch _ endT hg _ start hfuel
    · push_neg at hcl
      rw [min_eq_right (le_of_lt hcl)]
      simp only [gdaxLoopF, if_pos hlt]
      rw [gdaxLoopF_stop fetch _ endT _ _ _
        (by omega : ¬ endT + (gdaxGranularity period : Int) < endT)]
      simp only [List.length_cons, List.length_nil]
      exact (ceilDiv_one hc (by omega) (by omega)).symm
  · rw [gdaxLoopF_stop fetch _ endT _ _ _ hlt]
    simp only [List.length_nil]
    exact (ceilDiv_nonpos hc (by omega)).symm

theorem gdax_windows_layout (fetch : Int → Int → List GdaxBar) (start endT : Int)
    (period : Str) :
    ∀ i : Nat, i < (NewQuoteFromGdax fetch start endT period).1.length →
      ((NewQuoteFromGdax fetch start endT period).1.getD i (0, 0)).1 =
          start + (i : Int) * (201 * (gdaxGranularity period : Int)) ∧
        ((NewQuoteFromGdax fetch start endT period).1.getD i (0, 0)).2 =
          (if i = 0 then min (start + 200 * (gdaxGranularity period : Int)) endT
           else start + (i : Int) * (201 * (gdaxGranularity period : Int)) +
             200 * (gdaxGranularity period : Int)) := by
  intro i hi
  have hg := gdaxGranularity_pos period
  have hgz : (0 : Int) < (gdaxGranularity period : Int) := by exact_mod_cast hg
  simp only [NewQuoteFromGdax] at hi ⊢
  by_cases hlt : start < endT
  · by_cases hcl : start + 200 * (gdaxGranularity period : Int) ≤ endT
    · rw [min_eq_left hcl] at hi ⊢
      have h := gdaxLoopF_windows fetch _ endT _ start i hi
      refine ⟨h.1, ?_⟩
      rw [h.2]
      by_cases hi0 : i = 0
      · subst hi0
        rw [if_pos rfl]
        push_cast
        ring
      · rw [if_neg hi0]
    · push_neg at hcl
      rw [min_eq_right (le_of_lt hcl)] at hi ⊢
      simp only [gdaxLoopF, if_pos hlt] at hi ⊢
      rw [gdaxLoopF_stop fetch _ endT _ _ _
        (by omega : ¬ endT + (gdaxGranularity period : Int) < endT)] at hi ⊢
      simp only [List.length_cons, List.length_nil] at hi
      have hi0 : i = 0 := by omega
      subst hi0
      refine ⟨by simp, ?_⟩
      rw [if_pos rfl]
      simp
  · rw [gdaxLoopF_stop fetch _ endT _ _ _ hlt] at hi
    simp at hi

theorem gdax_dates_struct (fetch : Int → Int → List GdaxBar) (start endT : Int)
    (period : Str) :
    (NewQuoteFromGdax fetch start endT period).2.1 =
      ((NewQuoteFromGdax fetch start endT period).1.map
        (fun w => ((fetch w.1 w.2).map GdaxBar.t).reverse)).flatten := by
  simp only [NewQuoteFromGdax]
  exact gdaxLoopF_dates fetch _ endT _ _ _

theorem gdax_dates_len (fetch : Int → Int → List GdaxBar) (start endT : Int)
    (period : Str) :
    (NewQuoteFromGdax fetch start endT period).2.1.length =
      ((NewQuoteFromGdax fetch start endT period).1.map
        (fun w => (fetch w.1 w.2).length)).sum := by
  rw [gdax_dates_struct, List.length_flatten, List.map_map]
  congr 1
  apply List.map_congr_left
  intro w _
  simp

theorem gdax_dates_sorted (fetch : Int → Int → List GdaxBar) (start endT : Int)
    (period : Str)
    (hresp : ∀ w ∈ (NewQuoteFromGdax fetch start endT period).1,
        List.Pairwise (fun a b => b < a) ((fetch w.1 w.2).map GdaxBar.t) ∧
        ∀ b ∈ fetch w.1 w.2, w.1 ≤ b.t ∧ b.t ≤ w.2) :
    List.Pairwise (· < ·) (NewQuoteFromGdax fetch start endT period).2.1 := by
  have hg := gdaxGranularity_pos period
  have hgz : (0 : Int) < (gdaxGranularity period : Int) := by exact_mod_cast hg
  simp only [NewQuoteFromGdax] at hresp ⊢
  by_cases hlt : start < endT
  · have hse : start ≤ min (start + 200 * (gdaxGranularity period : Int)) endT := by
      apply le_min <;> omega
    exact (gdaxLoopF_pairwise fetch _ endT hg _ start _ hse hresp).1
  · rw [gdaxLoopF_stop fetch _ endT _ _ _ hlt]
    exact List.Pairwise.nil

/-- C4: the Gdax adapter windows the requested range into requests whose
count is the ceiling of the range over 201 granularities (window width 200
granularities, next window one granularity past the previous end, first
window end clamped to the overall end), reverses each window's descending
rows before appending, concatenates in window order so the bar count is the
sum of the window bar counts, and — whenever every window's response is
strictly descending and lies inside its window — the concatenated timestamps
are strictly ascending with no duplicates at window boundaries. -/
theorem c4_gdax_pagination (fetch : Int → Int → List GdaxBar) (start endT : Int)
    (period : Str) :
    (NewQuoteFromGdax fetch start endT period).1.length =
        ((endT - start + (201 * (gdaxGranularity period : Int) - 1)) /
          (201 * (gdaxGranularity period : Int))).toNat ∧
    (∀ i : Nat, i < (NewQuoteFromGdax fetch start endT period).1.length →
      ((NewQuoteFromGdax fetch start endT period).1.getD i (0, 0)).1 =
          start + (i : Int) * (201 * (gdaxGranularity period : Int)) ∧
        ((NewQuoteFromGdax fetch start endT period).1.getD i (0, 0)).2 =
          (if i = 0 then min (start + 200 * (gdaxGranularity period : Int)) endT
           else start + (i : Int) * (201 * (gdaxGranularity period : Int)) +
             200 * (gdaxGranularity period : Int))) ∧
    (NewQuoteFromGdax fetch start endT period).2.1 =
      ((NewQuoteFromGdax fetch start endT period).1.map
        (fun w => ((fetch w.1 w.2).map GdaxBar.t).reverse)).flatten ∧
    (NewQuoteFromGdax fetch start endT period).2.1.length =
      ((NewQuoteFromGdax fetch start endT period).1.map
        (fun w => (fetch w.1 w.2).length)).sum ∧
    ((∀ w ∈ (NewQuoteFromGdax fetch start endT period).1,
        List.Pairwise (fun a b => b < a) ((fetch w.1 w.2).map GdaxBar.t) ∧
        ∀ b ∈ fetch w.1 w.2, w.1 ≤ b.t ∧ b.t ≤ w.2) →
      List.Pairwise (· < ·) (NewQuoteFromGdax fetch start endT period).2.1) :=
  ⟨gdax_requests_len fetch start endT period,
   gdax_windows_layout fetch start endT period,
   gdax_dates_struct fetch start endT period,
   gdax_dates_len fetch start endT period,
   fun hresp => gdax_dates_sorted fetch start endT period hresp⟩

/-- Witness: the pagination theorem at one-minute granularity over a range
spanning two windows, with concrete descending in-window responses. -/
theorem c4_gdax_pagination_witness :
    (NewQuoteFromGdax gdaxFetchWit 0 20000 min1P).1.length = 2 ∧
    (∀ w ∈ (NewQuoteFromGdax gdaxFetchWit 0 20000 min1P).1,
      List.Pairwise (fun a b => b < a) ((gdaxFetchWit w.1 w.2).map GdaxBar.t) ∧
      ∀ b ∈ gdaxFetchWit w.1 w.2, w.1 ≤ b.t ∧ b.t ≤ w.2) ∧
    List.Pairwise (· < ·) (NewQuoteFromGdax gdaxFetchWit 0 20000 min1P).2.1 := by
  have hresp : ∀ w ∈ (NewQuoteFromGdax gdaxFetchWit 0 20000 min1P).1,
      List.Pairwise (fun a b => b < a) ((gdaxFetchWit w.1 w.2).map GdaxBar.t) ∧
      ∀ b ∈ gdaxFetchWit w.1 w.2, w.1 ≤ b.t ∧ b.t ≤ w.2 := by decide
  refine ⟨?_, hresp, (c4_gdax_pagination gdaxFetchWit 0 20000 min1P).2.2.2.2 hresp⟩
  rw [(c4_gdax_pagination gdaxFetchWit 0 20000 min1P).1]
  decide

end GoQuote
